import Mathlib

set_option autoImplicit false
set_option maxRecDepth 100000

/-!
Verification of the DoseTap repository's manifest-editing scripts (the
"Manifest Consistency Engine" of the spec).  The scripts mutate an Xcode
`project.pbxproj` file by regular-expression search and splice; we embed the
relevant string operations faithfully over `List Char` and prove or refute
the spec's claims about them.
-/

/-- Strings are modelled as lists of characters so that all scanning
functions are structurally recursive and kernel-computable. -/
abbrev Str := List Char

/-- Python literal-prefix stripping: `dropLit p s` returns `some r` when
`s = p ++ r`, otherwise `none`.  This is the matcher for a literal regex
fragment. -/
def dropLit : Str → Str → Option Str
  | [], s => some s
  | _, [] => none
  | p :: ps, c :: cs => if c = p then dropLit ps cs else none

/-- Membership test on identifier lists, Boolean-valued. -/
def elemB (x : Str) : List Str → Bool
  | [] => false
  | y :: ys => if x = y then true else elemB x ys

/-- Tail-recursive list length (kernel-reduction friendly on long texts). -/
def lenAcc {α : Type} : Nat → List α → Nat
  | n, [] => n
  | n, _ :: t => lenAcc (n + 1) t

/-- Tail-recursive length. -/
def lenT {α : Type} (s : List α) : Nat := lenAcc 0 s

/-- Character class `[A-F0-9]` used by the scripts' UUID patterns. -/
def isHexU (c : Char) : Bool := (('A' ≤ c) && (c ≤ 'F')) || (('0' ≤ c) && (c ≤ '9'))

/-- Character class `[A-Z0-9]` used by `rebuild_project.py` and
`fix_all_missing_files.py`. -/
def isUpAlnum (c : Char) : Bool := (('A' ≤ c) && (c ≤ 'Z')) || (('0' ≤ c) && (c ≤ '9'))

/-- Python's `\s` class (ASCII part), also the default `str.strip` set. -/
def isPySpace (c : Char) : Bool :=
  (c = ' ') || (c = '\t') || (c = '\n') || (c = '\x0d') || (c = '\x0b') || (c = '\x0c')

/-- Python's `\w` class (ASCII part). -/
def isWordC (c : Char) : Bool :=
  (('a' ≤ c) && (c ≤ 'z')) || (('A' ≤ c) && (c ≤ 'Z')) || (('0' ≤ c) && (c ≤ '9')) || (c = '_')

/-- Matcher for `{n}` repetitions of a character class: returns the matched
block and the remainder. -/
def takeClass (p : Char → Bool) : Nat → Str → Option (Str × Str)
  | 0, s => some ([], s)
  | _ + 1, [] => none
  | n + 1, c :: cs =>
      if p c then (takeClass p n cs).map (fun r => (c :: r.1, r.2)) else none

/-- Python substring test `needle in hay`. -/
def subStr (needle : Str) : Str → Bool
  | [] => needle.isEmpty
  | s@(_ :: t) => (dropLit needle s).isSome || subStr needle t

/-- Python `str.find`, auxiliary version returning an index option; the
accumulator keeps the function tail-recursive. -/
def pyFindAux (needle : Str) : Nat → Str → Option Nat
  | i, [] => if needle.isEmpty then some i else none
  | i, s@(_ :: t) =>
      if (dropLit needle s).isSome then some i
      else pyFindAux needle (i + 1) t

/-- Python `str.find`: index of the first occurrence, `-1` when absent. -/
def pyFind (needle hay : Str) : Int :=
  match pyFindAux needle 0 hay with
  | some n => (n : Int)
  | none => -1

/-- Python slice `s[:i]`, including the negative-index convention. -/
def pyTakeTo (s : Str) (i : Int) : Str :=
  if i < 0 then s.take (s.length - (-i).toNat) else s.take i.toNat

/-- Python slice `s[i:]`, including the negative-index convention. -/
def pyDropFrom (s : Str) (i : Int) : Str :=
  if i < 0 then s.drop (s.length - (-i).toNat) else s.drop i.toNat

/-- Number of (possibly overlapping) occurrences of `needle` in a string,
tail-recursively; used to state duplication facts about script outputs. -/
def countSubAcc (needle : Str) : Nat → Str → Nat
  | acc, [] => acc
  | acc, s@(_ :: t) =>
      countSubAcc needle (if (dropLit needle s).isSome then acc + 1 else acc) t

/-- Occurrence count of `needle`. -/
def countSub (needle s : Str) : Nat := countSubAcc needle 0 s

/-- First success of `f` over a candidate list; the backbone of greedy
(descending candidates) and lazy (ascending candidates) regex quantifiers. -/
def firstSome {α β : Type} (f : α → Option β) : List α → Option β
  | [] => none
  | a :: as =>
      match f a with
      | some b => some b
      | none => firstSome f as

/-! ## dedupe_sources.py — the deduplicate operation -/

/-- Concatenation of a list of strings. -/
def catLists (l : List Str) : Str := l.foldr (fun a b => a ++ b) []

/-- Matcher for one membership entry of the Sources build phase, the
`findall` pattern `[\t ]*([A-F0-9]{24}) /\* ([^*]+) \*/,?` of
`dedupe_sources.py` (line 38).  Returns the two captured groups (uuid and
name) and the remainder of the text after the match. -/
def entryTail (u : Str) (s3 : Str) : Option (Str × Str × Str) :=
  match (s3.takeWhile (fun c => c ≠ '*')).reverse with
  | ' ' :: c2 :: cs =>
      match dropLit ("*/".toList) (s3.dropWhile (fun c => c ≠ '*')) with
      | none => none
      | some s5 =>
          match s5 with
          | ',' :: s6 => some (u, (c2 :: cs).reverse, s6)
          | _ => some (u, (c2 :: cs).reverse, s5)
  | _ => none

def entryAt (s : Str) : Option (Str × Str × Str) :=
  match takeClass isHexU 24 (s.dropWhile (fun c => (c = '\t') || (c = ' '))) with
  | none => none
  | some (u, s2) =>
      match dropLit (" /* ".toList) s2 with
      | none => none
      | some s3 => entryTail u s3

/-- Fuel-indexed scan of all entry matches (`re.findall` semantics: leftmost,
non-overlapping, continue after each match).  Fuel `≥ length` suffices since
every step consumes at least one character. -/
def scanEntries : Nat → Str → List (Str × Str)
  | 0, _ => []
  | _ + 1, [] => []
  | n + 1, s@(_ :: t) =>
      match entryAt s with
      | some (u, nm, rest) => (u, nm) :: scanEntries n rest
      | none => scanEntries n t

/-- All `(uuid, name)` entries of a files section, as parsed by
`dedupe_sources.py` line 38. -/
def parseEntriesT (s : Str) : List (Str × Str) := scanEntries (lenT s) s

/-- One rebuilt line of the files section: `f'\t\t\t\t{uuid} /* {name} */,\n'`
(`dedupe_sources.py` line 64). -/
def entryLine (e : Str × Str) : Str :=
  ("\t\t\t\t".toList) ++ e.1 ++ (" /* ".toList) ++ e.2 ++ (" */,\n".toList)

/-- The rebuilt files section (`dedupe_sources.py` lines 62-65): a leading
newline, one canonical line per kept entry, and a three-tab tail. -/
def renderEntries (l : List (Str × Str)) : Str :=
  '\n' :: (catLists (l.map entryLine) ++ ("\t\t\t".toList))

/-- Fuel-indexed Python `str.replace(pat, '')` (delete all occurrences). -/
def replFuel (pat : Str) : Nat → Str → Str
  | 0, s => s
  | _ + 1, [] => []
  | n + 1, s@(c :: t) =>
      match dropLit pat s with
      | some r => replFuel pat n r
      | none => c :: replFuel pat n t

/-- Python `name.replace(' in Sources', '')`. -/
def pyReplaceDel (pat s : Str) : Str := replFuel pat (lenT s) s

/-- Python `str.strip()` over the ASCII whitespace set. -/
def pyStrip (s : Str) : Str :=
  ((s.dropWhile isPySpace).reverse.dropWhile isPySpace).reverse

/-- The filename key under which duplicates are detected
(`dedupe_sources.py` line 49): drop every `' in Sources'` and strip. -/
def entryKey (nm : Str) : Str := pyStrip (pyReplaceDel (" in Sources".toList) nm)

/-- The first-occurrence fold of `dedupe_sources.py` lines 43-56: `seen`
is the set of filenames already kept. -/
def dedupeGo (seen : List Str) : List (Str × Str) → List (Str × Str)
  | [] => []
  | e :: es =>
      if entryKey e.2 ∈ seen then dedupeGo seen es
      else e :: dedupeGo (entryKey e.2 :: seen) es

/-- Deduplication of a membership-entry list, keeping first occurrences. -/
def dedupeEntries (l : List (Str × Str)) : List (Str × Str) := dedupeGo [] l

/-- Innermost fragment of the Sources-block pattern: `([^)]+)(\);)`.
Returns group 2 (the files list) and the remainder after `);`. -/
def srcFiles (u2 : Str) : Option (Str × Str) :=
  if (u2.takeWhile (fun c => c ≠ ')')).isEmpty then none
  else
    match dropLit (");".toList) (u2.dropWhile (fun c => c ≠ ')')) with
    | some rest => some (u2.takeWhile (fun c => c ≠ ')'), rest)
    | none => none

/-- Middle fragment: greedy `[^}]*` followed by `files = \(` and the inner
fragment; candidates are tried longest-first (greedy backtracking). -/
def srcAfterB (t2 : Str) : Option (Str × Str × Str) :=
  firstSome
    (fun i =>
      match dropLit ("files = (".toList) (t2.drop i) with
      | none => none
      | some u2 =>
          match srcFiles u2 with
          | none => none
          | some (g2, rest) =>
              some (t2.take i ++ ("files = (".toList), g2, rest))
    ((List.range (lenT (t2.takeWhile (fun c => c ≠ '}')) + 1)).reverse)

/-- Match of the whole Sources-block pattern of `dedupe_sources.py`
lines 24-26, `(/\* Sources \*/ = \{[^}]*isa = PBXSourcesBuildPhase;[^}]*files
= \()([^)]+)(\);)`, at the current position.  Returns (group 1, group 2,
group 3, remainder). -/
def matchSrcAt (s : Str) : Option (Str × Str × Str × Str) :=
  match dropLit ("/* Sources */ = \x7b".toList) s with
  | none => none
  | some s1 =>
      firstSome
        (fun i =>
          match dropLit ("isa = PBXSourcesBuildPhase;".toList) (s1.drop i) with
          | none => none
          | some t2 =>
              match srcAfterB t2 with
              | none => none
              | some (x2C, g2, rest) =>
                  some (("/* Sources */ = \x7b".toList) ++ s1.take i ++
                          ("isa = PBXSourcesBuildPhase;".toList) ++ x2C,
                        g2, (");").toList, rest))
        ((List.range (lenT (s1.takeWhile (fun c => c ≠ '}')) + 1)).reverse)

/-- Leftmost match of the Sources-block pattern (`re.search` semantics):
returns (text before the match, group 1, group 2, group 3, text after). -/
def searchSrc : Str → Option (Str × Str × Str × Str × Str)
  | [] => none
  | s@(c :: t) =>
      match matchSrcAt s with
      | some (g1, g2, g3, rest) => some ([], g1, g2, g3, rest)
      | none =>
          match searchSrc t with
          | some (b, g1, g2, g3, rest) => some (c :: b, g1, g2, g3, rest)
          | none => none

/-- The whole `deduplicate_sources` operation of `dedupe_sources.py`:
locate the Sources build phase, parse its files section, keep first
occurrences, rebuild the section in canonical form and splice it back.
Returns `none` (no write at all) when the pattern does not match. -/
def deduplicate_sources (content : Str) : Option Str :=
  match searchSrc content with
  | none => none
  | some (b, g1, g2, g3, rest) =>
      some (b ++ g1 ++ renderEntries (dedupeEntries (parseEntriesT g2)) ++ g3 ++ rest)

/-! ## Basic facts about the matcher combinators -/

theorem lenAcc_eq {α : Type} : ∀ (s : List α) (n : Nat), lenAcc n s = n + s.length := by
  intro s
  induction s with
  | nil => intro n; simp [lenAcc]
  | cons c t ih => intro n; simp [lenAcc, ih]; omega

theorem lenT_eq {α : Type} (s : List α) : lenT s = s.length := by
  simp [lenT, lenAcc_eq]

theorem dropLit_eq_append {p s r : Str} (h : dropLit p s = some r) : s = p ++ r := by
  induction p generalizing s with
  | nil => simpa [dropLit] using h
  | cons a as ih =>
      cases s with
      | nil => simp [dropLit] at h
      | cons c cs =>
          by_cases hc : c = a
          · subst hc
            simp only [dropLit, if_pos rfl] at h
            simpa using ih h
          · simp [dropLit, hc] at h

theorem dropLit_self (p r : Str) : dropLit p (p ++ r) = some r := by
  induction p with
  | nil => simp [dropLit]
  | cons a as ih => simp [dropLit, ih]

theorem dropLit_length {p s r : Str} (h : dropLit p s = some r) :
    s.length = p.length + r.length := by
  have := dropLit_eq_append h
  subst this
  simp [Nat.add_comm]

theorem takeClass_eq_append {p : Char → Bool} {n : Nat} {s u r : Str}
    (h : takeClass p n s = some (u, r)) :
    s = u ++ r ∧ u.length = n ∧ ∀ c ∈ u, p c = true := by
  induction n generalizing s u r with
  | zero =>
      simp only [takeClass, Option.some.injEq, Prod.mk.injEq] at h
      obtain ⟨h1, h2⟩ := h
      subst h1; subst h2
      simp
  | succ m ih =>
      cases s with
      | nil => simp [takeClass] at h
      | cons c cs =>
          by_cases hc : p c = true
          · simp only [takeClass, hc, if_pos, Option.map_eq_some'] at h
            obtain ⟨⟨u', r'⟩, hrec, heq⟩ := h
            obtain ⟨h1, h2, h3⟩ := ih hrec
            simp only [Prod.mk.injEq] at heq
            obtain ⟨hu, hr⟩ := heq
            subst hu; subst hr
            refine ⟨by simp [h1], by simp [h2], ?_⟩
            intro d hd
            rcases List.mem_cons.mp hd with h | h
            · subst h; exact hc
            · exact h3 d h
          · simp only [takeClass, hc] at h
            simp at hc
            simp [hc] at h

theorem takeClass_exact {p : Char → Bool} {u : Str} (r : Str)
    (hlen : u.length = 24) (hall : ∀ c ∈ u, p c = true) :
    takeClass p 24 (u ++ r) = some (u, r) := by
  rw [← hlen]
  clear hlen
  induction u with
  | nil => simp [takeClass]
  | cons c cs ih =>
      have hc : p c = true := hall c (by simp)
      have hih := ih (fun d hd => hall d (by simp [hd]))
      simp only [List.cons_append, List.length_cons, takeClass, hc, if_pos]
      simp only [List.append_eq] at hih ⊢
      rw [hih]
      simp

theorem takeWhile_app_stop {α : Type} {p : α → Bool} {u : List α} {y : α} {v : List α}
    (h1 : ∀ a ∈ u, p a = true) (h2 : p y = false) :
    (u ++ y :: v).takeWhile p = u := by
  induction u with
  | nil => simp [List.takeWhile_cons, h2]
  | cons x xt ih =>
      simp only [List.cons_append, List.takeWhile_cons, h1 x (by simp), if_pos]
      rw [ih (fun a ha => h1 a (by simp [ha]))]

theorem dropWhile_app_stop {α : Type} {p : α → Bool} {u : List α} {y : α} {v : List α}
    (h1 : ∀ a ∈ u, p a = true) (h2 : p y = false) :
    (u ++ y :: v).dropWhile p = y :: v := by
  induction u with
  | nil => simp [List.dropWhile_cons, h2]
  | cons x xt ih =>
      simp only [List.cons_append, List.dropWhile_cons, h1 x (by simp), if_pos]
      exact ih (fun a ha => h1 a (by simp [ha]))

theorem firstSome_eq_some {α β : Type} {f : α → Option β} {l : List α} {b : β}
    (h : firstSome f l = some b) : ∃ a ∈ l, f a = some b := by
  induction l with
  | nil => simp [firstSome] at h
  | cons a as ih =>
      simp only [firstSome] at h
      cases hfa : f a with
      | some b' =>
          rw [hfa] at h
          injection h with hb
          subst hb
          exact ⟨a, by simp, hfa⟩
      | none =>
          rw [hfa] at h
          obtain ⟨a', ha', hfa'⟩ := ih h
          exact ⟨a', by simp [ha'], hfa'⟩

/-! ## Decomposition of the Sources-block match -/

theorem srcFiles_decomp {u2 g rest : Str} (h : srcFiles u2 = some (g, rest)) :
    u2 = g ++ (");").toList ++ rest ∧ g ≠ [] := by
  unfold srcFiles at h
  split at h
  · exact absurd h (by simp)
  · rename_i hg
    split at h
    · rename_i rest' heq
      simp only [Option.some.injEq, Prod.mk.injEq] at h
      obtain ⟨h1, h2⟩ := h
      subst h1; subst h2
      constructor
      · conv_lhs => rw [← List.takeWhile_append_dropWhile (p := fun c => c ≠ ')') (l := u2)]
        rw [dropLit_eq_append heq]
        simp
      · intro hnil
        rw [hnil] at hg
        simp at hg
    · exact absurd h (by simp)

theorem srcAfterB_decomp {t2 x2C g2 rest : Str}
    (h : srcAfterB t2 = some (x2C, g2, rest)) :
    t2 = x2C ++ g2 ++ (");").toList ++ rest := by
  unfold srcAfterB at h
  obtain ⟨i, _, hfi⟩ := firstSome_eq_some h
  split at hfi
  · exact absurd hfi (by simp)
  · rename_i u2 heqC
    split at hfi
    · exact absurd hfi (by simp)
    · rename_i g2' rest' heqF
      simp only [Option.some.injEq, Prod.mk.injEq] at hfi
      obtain ⟨h1, h2, h3⟩ := hfi
      subst h1; subst h2; subst h3
      obtain ⟨hu2, _⟩ := srcFiles_decomp heqF
      conv_lhs => rw [← List.take_append_drop i t2]
      rw [dropLit_eq_append heqC, hu2]
      simp

theorem matchSrcAt_decomp {s g1 g2 g3 rest : Str}
    (h : matchSrcAt s = some (g1, g2, g3, rest)) :
    s = g1 ++ g2 ++ g3 ++ rest ∧ g3 = (");").toList := by
  unfold matchSrcAt at h
  split at h
  · exact absurd h (by simp)
  · rename_i s1 heqA
    obtain ⟨i, _, hfi⟩ := firstSome_eq_some h
    split at hfi
    · exact absurd hfi (by simp)
    · rename_i t2 heqB
      split at hfi
      · exact absurd hfi (by simp)
      · rename_i x2C g2' rest' heqM
        simp only [Option.some.injEq, Prod.mk.injEq] at hfi
        obtain ⟨h1, h2, h3, h4⟩ := hfi
        subst h1; subst h2; subst h3; subst h4
        refine ⟨?_, rfl⟩
        have ht2 := srcAfterB_decomp heqM
        rw [dropLit_eq_append heqA]
        conv_lhs => rw [← List.take_append_drop i s1]
        rw [dropLit_eq_append heqB, ht2]
        simp

theorem searchSrc_decomp {s b g1 g2 g3 rest : Str}
    (h : searchSrc s = some (b, g1, g2, g3, rest)) :
    s = b ++ g1 ++ g2 ++ g3 ++ rest ∧ g3 = (");").toList := by
  induction s generalizing b with
  | nil => simp [searchSrc] at h
  | cons c t ih =>
      unfold searchSrc at h
      split at h
      · rename_i gg1 gg2 gg3 rr heqM
        simp only [Option.some.injEq, Prod.mk.injEq] at h
        obtain ⟨h0, h1, h2, h3, h4⟩ := h
        subst h0; subst h1; subst h2; subst h3; subst h4
        obtain ⟨hd, hg3⟩ := matchSrcAt_decomp heqM
        exact ⟨by simpa using hd, hg3⟩
      · rename_i heqN
        split at h
        · rename_i b' gg1 gg2 gg3 rr heqS
          simp only [Option.some.injEq, Prod.mk.injEq] at h
          obtain ⟨h0, h1, h2, h3, h4⟩ := h
          subst h0; subst h1; subst h2; subst h3; subst h4
          obtain ⟨hd, hg3⟩ := ih heqS
          exact ⟨by simp [hd], hg3⟩
        · exact absurd h (by simp)

/-! ## Well-formedness of parsed entries and scanner facts -/

theorem len_dropWhile_le {α : Type} (p : α → Bool) (l : List α) :
    (l.dropWhile p).length ≤ l.length :=
  (List.dropWhile_suffix p).sublist.length_le

/-- Shape of every entry produced by the findall pattern: a 24-character
uppercase-hex uuid and a nonempty, star-free name. -/
def wfEntry (e : Str × Str) : Prop :=
  e.1.length = 24 ∧ (∀ c ∈ e.1, isHexU c = true) ∧ e.2 ≠ [] ∧ (∀ c ∈ e.2, c ≠ '*')

theorem entryAt_some {s u nm r : Str} (h : entryAt s = some (u, nm, r)) :
    r.length < s.length ∧ wfEntry (u, nm) := by
  unfold entryAt at h
  split at h
  · exact absurd h (by simp)
  · rename_i u' s2 heqT
    split at h
    · exact absurd h (by simp)
    · rename_i s3 heqL
      unfold entryTail at h
      split at h
      · rename_i c2 cs hg
        split at h
        · exact absurd h (by simp)
        · rename_i s5 heqS
          obtain ⟨hdw, hlen24, hhex⟩ :=
            takeClass_eq_append (p := isHexU) (n := 24) heqT
          have hnm_ne : (c2 :: cs).reverse ≠ [] := by simp
          have hnm_star : ∀ c ∈ (c2 :: cs).reverse, c ≠ '*' := by
            intro c hc
            have hc1 : c ∈ ' ' :: c2 :: cs := by
              simp only [List.mem_reverse] at hc
              exact List.mem_cons_of_mem _ hc
            rw [← hg] at hc1
            have hc2 : c ∈ s3.takeWhile (fun c => c ≠ '*') := by
              simpa using hc1
            have := List.mem_takeWhile_imp hc2
            simpa using this
          have hdwlen : (s.dropWhile (fun c => (c = '\t') || (c = ' '))).length ≤ s.length :=
            len_dropWhile_le _ _
          have hs2 : s2.length + 24 = (s.dropWhile (fun c => (c = '\t') || (c = ' '))).length := by
            rw [hdw]
            simp [hlen24, Nat.add_comm]
          have hs3 : s2.length = 4 + s3.length := dropLit_length heqL
          have hs4len : (s3.dropWhile (fun c => c ≠ '*')).length ≤ s3.length :=
            len_dropWhile_le _ _
          have hs5 : (s3.dropWhile (fun c => c ≠ '*')).length = 2 + s5.length :=
            dropLit_length heqS
          split at h
          · rename_i s6
            simp only [Option.some.injEq, Prod.mk.injEq] at h
            obtain ⟨h1, h2, h3⟩ := h
            subst h1; subst h2; subst h3
            simp only [List.length_cons] at hs5
            exact ⟨by omega, by simpa using hlen24, by simpa using hhex,
              by simpa using hnm_ne, by simpa using hnm_star⟩
          · simp only [Option.some.injEq, Prod.mk.injEq] at h
            obtain ⟨h1, h2, h3⟩ := h
            subst h1; subst h2; subst h3
            exact ⟨by omega, by simpa using hlen24, by simpa using hhex,
              by simpa using hnm_ne, by simpa using hnm_star⟩
      · exact absurd h (by simp)

theorem scanEntries_stable : ∀ (f1 f2 : Nat) (s : Str), s.length ≤ f1 → s.length ≤ f2 →
    scanEntries f1 s = scanEntries f2 s := by
  intro f1
  induction f1 with
  | zero =>
      intro f2 s hs1 _
      have hnil : s = [] := by
        cases s with
        | nil => rfl
        | cons c t => simp at hs1
      subst hnil
      cases f2 <;> simp [scanEntries]
  | succ n ih =>
      intro f2 s hs1 hs2
      cases s with
      | nil => cases f2 <;> simp [scanEntries]
      | cons c t =>
          cases f2 with
          | zero => simp at hs2
          | succ m =>
              cases heq : entryAt (c :: t) with
              | some res =>
                  obtain ⟨u, nm, r⟩ := res
                  have hr := (entryAt_some heq).1
                  simp only [List.length_cons] at hs1 hs2 hr
                  simp only [scanEntries, heq]
                  rw [ih m r (by omega) (by omega)]
              | none =>
                  simp only [List.length_cons] at hs1 hs2
                  simp only [scanEntries, heq]
                  rw [ih m t (by omega) (by omega)]

theorem scanEntries_wf : ∀ (f : Nat) (s : Str) (e : Str × Str),
    e ∈ scanEntries f s → wfEntry e := by
  intro f
  induction f with
  | zero => intro s e h; simp [scanEntries] at h
  | succ n ih =>
      intro s e h
      cases s with
      | nil => simp [scanEntries] at h
      | cons c t =>
          cases heq : entryAt (c :: t) with
          | some res =>
              obtain ⟨u, nm, r⟩ := res
              simp only [scanEntries, heq] at h
              rcases List.mem_cons.mp h with h1 | h1
              · subst h1
                exact (entryAt_some heq).2
              · exact ih r e h1
          | none =>
              simp only [scanEntries, heq] at h
              exact ih t e h

theorem parseEntriesT_wf {s : Str} {e : Str × Str} (h : e ∈ parseEntriesT s) : wfEntry e :=
  scanEntries_wf (lenT s) s e h

/-! ## Round trip: parsing the rebuilt files section returns the kept entries -/

theorem hex_not_space {c : Char} (h : isHexU c = true) :
    ((c = '\t') || (c = ' ') : Bool) = false := by
  have h1 : c ≠ '\t' := by rintro rfl; exact absurd h (by decide)
  have h2 : c ≠ ' ' := by rintro rfl; exact absurd h (by decide)
  simp [h1, h2]

theorem entryAt_entryLine (e : Str × Str) (T : Str) (hwf : wfEntry e) :
    entryAt (entryLine e ++ T) = some (e.1, e.2, '\n' :: T) := by
  obtain ⟨hlen, hhex, hne, hstar⟩ := hwf
  obtain ⟨c, cs, hu⟩ : ∃ c cs, e.1 = c :: cs := by
    cases hu : e.1 with
    | nil => rw [hu] at hlen; simp at hlen
    | cons c cs => exact ⟨c, cs, rfl⟩
  have hA : (entryLine e ++ T).dropWhile (fun c => (c = '\t') || (c = ' '))
      = e.1 ++ ((" /* ".toList) ++ (e.2 ++ ((" */,\n".toList) ++ T))) := by
    simp only [entryLine, hu, List.append_assoc, List.cons_append]
    rw [dropWhile_app_stop (p := fun c => (c = '\t') || (c = ' '))
      (u := "\t\t\t\t".toList) (y := c)
      (by intro a ha; fin_cases ha <;> rfl)
      (hex_not_space (hhex c (by simp [hu])))]
  have hB : takeClass isHexU 24
      (e.1 ++ ((" /* ".toList) ++ (e.2 ++ ((" */,\n".toList) ++ T))))
      = some (e.1, (" /* ".toList) ++ (e.2 ++ ((" */,\n".toList) ++ T))) :=
    takeClass_exact _ hlen hhex
  obtain ⟨c2, cs2, hrev⟩ : ∃ c2 cs2, e.2.reverse = c2 :: cs2 := by
    cases hrev : e.2.reverse with
    | nil => exact absurd (by simpa using hrev) hne
    | cons c2 cs2 => exact ⟨c2, cs2, rfl⟩
  have hC : (e.2 ++ ((" */,\n".toList) ++ T)).takeWhile (fun c => c ≠ '*')
      = e.2 ++ [' '] := by
    have hsh : e.2 ++ ((" */,\n".toList) ++ T)
        = (e.2 ++ [' ']) ++ '*' :: ('/' :: ',' :: '\n' :: T) := by
      simp
    rw [hsh, takeWhile_app_stop (p := fun c => c ≠ '*')
      (by
        intro a ha
        rcases List.mem_append.mp ha with h1 | h1
        · simpa using hstar a h1
        · simp at h1
          simp [h1])
      (by simp)]
  have hD : (e.2 ++ ((" */,\n".toList) ++ T)).dropWhile (fun c => c ≠ '*')
      = '*' :: ('/' :: ',' :: '\n' :: T) := by
    have hsh : e.2 ++ ((" */,\n".toList) ++ T)
        = (e.2 ++ [' ']) ++ '*' :: ('/' :: ',' :: '\n' :: T) := by
      simp
    rw [hsh, dropWhile_app_stop (p := fun c => c ≠ '*')
      (by
        intro a ha
        rcases List.mem_append.mp ha with h1 | h1
        · simpa using hstar a h1
        · simp at h1
          simp [h1])
      (by simp)]
  have hCrev : (e.2 ++ [' ']).reverse = ' ' :: c2 :: cs2 := by
    rw [List.reverse_append, hrev]
    simp
  have hback : (c2 :: cs2).reverse = e.2 := by
    rw [← hrev, List.reverse_reverse]
  have hL : dropLit (" /* ".toList) ((" /* ".toList) ++ (e.2 ++ ((" */,\n".toList) ++ T)))
      = some (e.2 ++ ((" */,\n".toList) ++ T)) := dropLit_self _ _
  have hE : dropLit ("*/".toList) ('*' :: '/' :: ',' :: '\n' :: T) = some (',' :: '\n' :: T) := rfl
  simp only [entryAt, hA, hB, hL, entryTail, hC, hD, hCrev, hE, hback]

theorem entryAt_nl (R : Str) : entryAt ('\n' :: R) = none := rfl

theorem entryLine_length (e : Str × Str) :
    (entryLine e).length = e.1.length + e.2.length + 13 := by
  simp [entryLine]
  omega

theorem scanEntries_cons_some {n : Nat} {s u nm r : Str}
    (hne : s ≠ []) (h : entryAt s = some (u, nm, r)) :
    scanEntries (n + 1) s = (u, nm) :: scanEntries n r := by
  cases s with
  | nil => exact absurd rfl hne
  | cons c t => simp only [scanEntries, h]

theorem scan_lines : ∀ (l : List (Str × Str)) (T : Str) (fuel : Nat),
    (∀ e ∈ l, wfEntry e) →
    (catLists (l.map entryLine) ++ T).length ≤ fuel →
    scanEntries fuel (catLists (l.map entryLine) ++ T) = l ++ scanEntries T.length T := by
  intro l
  induction l with
  | nil =>
      intro T fuel _ hfuel
      simp only [List.map_nil, catLists, List.foldr_nil, List.nil_append] at hfuel ⊢
      exact scanEntries_stable fuel T.length T hfuel (le_refl _)
  | cons e l' ih =>
      intro T fuel hwf hfuel
      have hwfe : wfEntry e := hwf e (by simp)
      have hsh : catLists ((e :: l').map entryLine) ++ T
          = entryLine e ++ (catLists (l'.map entryLine) ++ T) := by
        simp [catLists]
      rw [hsh] at hfuel ⊢
      have hlenL := entryLine_length e
      have hlen1 : (e.1).length = 24 := hwfe.1
      have hlentot : (entryLine e ++ (catLists (l'.map entryLine) ++ T)).length
          = (entryLine e).length + (catLists (l'.map entryLine) ++ T).length := by
        simp
      have hne : entryLine e ++ (catLists (l'.map entryLine) ++ T) ≠ [] := by
        simp [entryLine]
      cases fuel with
      | zero => omega
      | succ f =>
          rw [scanEntries_cons_some hne (entryAt_entryLine e _ hwfe)]
          cases f with
          | zero => omega
          | succ g =>
              simp only [scanEntries, entryAt_nl]
              have hg : (catLists (l'.map entryLine) ++ T).length ≤ g := by omega
              rw [scanEntries_stable g (catLists (l'.map entryLine) ++ T).length _ hg (le_refl _)]
              rw [ih T (catLists (l'.map entryLine) ++ T).length
                (fun x hx => hwf x (List.mem_cons_of_mem _ hx)) (le_refl _)]
              simp

theorem parse_render (l : List (Str × Str)) (h : ∀ e ∈ l, wfEntry e) :
    parseEntriesT (renderEntries l) = l := by
  unfold parseEntriesT renderEntries
  rw [lenT_eq]
  rw [show ('\n' :: (catLists (l.map entryLine) ++ ("\t\t\t".toList))).length
      = (catLists (l.map entryLine) ++ ("\t\t\t".toList)).length + 1 from by simp]
  simp only [scanEntries, entryAt_nl]
  rw [scan_lines l ("\t\t\t".toList) _ h (le_refl _)]
  rw [show scanEntries (("\t\t\t".toList).length) ("\t\t\t".toList) = [] from rfl]
  simp

/-! ## Facts about the first-occurrence fold -/

theorem dedupeGo_subset : ∀ (l : List (Str × Str)) (seen : List Str) (e : Str × Str),
    e ∈ dedupeGo seen l → e ∈ l := by
  intro l
  induction l with
  | nil => intro seen e h; simp [dedupeGo] at h
  | cons a l' ih =>
      intro seen e h
      simp only [dedupeGo] at h
      split at h
      · exact List.mem_cons_of_mem _ (ih seen e h)
      · rcases List.mem_cons.mp h with h1 | h1
        · simp [h1]
        · exact List.mem_cons_of_mem _ (ih _ e h1)

theorem dedupeGo_avoids : ∀ (l : List (Str × Str)) (seen : List Str) (e : Str × Str),
    e ∈ dedupeGo seen l → entryKey e.2 ∉ seen := by
  intro l
  induction l with
  | nil => intro seen e h; simp [dedupeGo] at h
  | cons a l' ih =>
      intro seen e h
      simp only [dedupeGo] at h
      split at h
      · exact ih seen e h
      · rcases List.mem_cons.mp h with h1 | h1
        · subst h1
          assumption
        · intro hc
          exact ih _ e h1 (List.mem_cons_of_mem _ hc)

theorem dedupeGo_keys_nodup : ∀ (l : List (Str × Str)) (seen : List Str),
    ((dedupeGo seen l).map (fun e => entryKey e.2)).Nodup := by
  intro l
  induction l with
  | nil => intro seen; simp [dedupeGo]
  | cons a l' ih =>
      intro seen
      simp only [dedupeGo]
      split
      · exact ih seen
      · simp only [List.map_cons, List.nodup_cons]
        refine ⟨?_, ih _⟩
        intro hc
        obtain ⟨e, he, hkey⟩ := List.mem_map.mp hc
        exact dedupeGo_avoids l' _ e he (by simp [hkey])

theorem dedupeGo_eq_self : ∀ (l : List (Str × Str)) (seen : List Str),
    (l.map (fun e => entryKey e.2)).Nodup →
    (∀ e ∈ l, entryKey e.2 ∉ seen) →
    dedupeGo seen l = l := by
  intro l
  induction l with
  | nil => intro seen _ _; simp [dedupeGo]
  | cons a l' ih =>
      intro seen hnd havoid
      simp only [List.map_cons, List.nodup_cons] at hnd
      have hna : entryKey a.2 ∉ seen := havoid a (by simp)
      simp only [dedupeGo, if_neg hna]
      rw [ih (entryKey a.2 :: seen) hnd.2]
      intro e he
      simp only [List.mem_cons]
      rintro (h1 | h1)
      · exact hnd.1 (List.mem_map.mpr ⟨e, he, h1⟩)
      · exact havoid e (List.mem_cons_of_mem _ he) h1

theorem dedupeEntries_idem (l : List (Str × Str)) :
    dedupeEntries (dedupeEntries l) = dedupeEntries l := by
  unfold dedupeEntries
  exact dedupeGo_eq_self _ [] (dedupeGo_keys_nodup l []) (fun e _ => List.not_mem_nil _)

/-- Specification-side description of the deduplicate operation, following
the claim's words: retain the first occurrence of each displayName and
remove every subsequent occurrence of that name. -/
def specFirstOcc : List (Str × Str) → List (Str × Str)
  | [] => []
  | e :: es => e :: specFirstOcc (es.filter (fun x => entryKey x.2 ≠ entryKey e.2))
termination_by l => l.length
decreasing_by
  simp only [List.length_cons]
  exact Nat.lt_succ_of_le (List.length_filter_le _ es)

theorem dedupeGo_spec : ∀ (l : List (Str × Str)) (seen : List Str),
    dedupeGo seen l = specFirstOcc (l.filter (fun x => entryKey x.2 ∉ seen)) := by
  intro l
  induction l with
  | nil => intro seen; simp [dedupeGo, specFirstOcc]
  | cons a l' ih =>
      intro seen
      simp only [dedupeGo]
      by_cases hmem : entryKey a.2 ∈ seen
      · rw [if_pos hmem, List.filter_cons_of_neg (by simpa using hmem), ih seen]
      · rw [if_neg hmem, List.filter_cons_of_pos (by simpa using hmem), ih]
        simp only [specFirstOcc]
        congr 1
        rw [List.filter_filter]
        congr 1
        apply List.filter_congr
        intro x _
        simp only [List.mem_cons, not_or, decide_not]
        rcases Decidable.em (entryKey x.2 = entryKey a.2) with h1 | h1 <;>
          rcases Decidable.em (entryKey x.2 ∈ seen) with h2 | h2 <;>
            simp [h1, h2]

/-! ## Claim theorems for the deduplicate operation -/

/-- C7: deduplicate keeps first occurrences.  Scanning the build phase's
ordered membership list, the fold of `dedupe_sources.py` retains, for every
displayName (resolved through the entry's name, normalised by removing
`' in Sources'` and stripping), exactly the first occurrence and removes
every subsequent occurrence — it equals the specification-side
first-occurrence recursion. -/
theorem c7_dedupe_keeps_first (l : List (Str × Str)) :
    dedupeEntries l = specFirstOcc l := by
  unfold dedupeEntries
  rw [dedupeGo_spec l []]
  congr 1
  apply List.filter_eq_self.mpr
  intro x _
  simp

/-- C8: deduplicate is idempotent at the manifest-text level.  If the first
run matches the Sources block and rewrites its files section, and the second
run's search finds the rewritten block in place, then the second run
produces output byte-identical to the first run's output (a no-op). -/
theorem c8_dedupe_idempotent (content b g1 f g3 a : Str)
    (h1 : searchSrc content = some (b, g1, f, g3, a))
    (h2 : searchSrc (b ++ g1 ++ renderEntries (dedupeEntries (parseEntriesT f)) ++ g3 ++ a)
        = some (b, g1, renderEntries (dedupeEntries (parseEntriesT f)), g3, a)) :
    deduplicate_sources content
      = some (b ++ g1 ++ renderEntries (dedupeEntries (parseEntriesT f)) ++ g3 ++ a) ∧
    deduplicate_sources (b ++ g1 ++ renderEntries (dedupeEntries (parseEntriesT f)) ++ g3 ++ a)
      = some (b ++ g1 ++ renderEntries (dedupeEntries (parseEntriesT f)) ++ g3 ++ a) := by
  constructor
  · unfold deduplicate_sources
    simp only [h1]
  · unfold deduplicate_sources
    simp only [h2]
    have hwfu : ∀ e ∈ dedupeEntries (parseEntriesT f), wfEntry e :=
      fun e he => parseEntriesT_wf (dedupeGo_subset _ [] e he)
    rw [parse_render _ hwfu, dedupeEntries_idem]

/-- C10: deduplicate has a frame property.  When the Sources block is
matched, the manifest decomposes as `before ++ group1 ++ files ++ group3 ++
after` and the operation rewrites exactly the files part, copying every byte
before the match start and after the match end unchanged; when no block is
matched, nothing is written at all. -/
theorem c10_dedupe_frame (content : Str) :
    (∀ b g1 f g3 a, searchSrc content = some (b, g1, f, g3, a) →
        content = b ++ g1 ++ f ++ g3 ++ a ∧
        deduplicate_sources content
          = some (b ++ g1 ++ renderEntries (dedupeEntries (parseEntriesT f)) ++ g3 ++ a)) ∧
    (searchSrc content = none → deduplicate_sources content = none) := by
  constructor
  · intro b g1 f g3 a h
    refine ⟨(searchSrc_decomp h).1, ?_⟩
    unfold deduplicate_sources
    simp only [h]
  · intro h
    unfold deduplicate_sources
    simp only [h]

/-- C4 amended: the zero-mutation round trip is byte-identical exactly on
canonical files sections.  If the matched files section has no duplicate
name and is a fixed point of the renderer (already in the canonical
one-entry-per-line, trailing-comma form), the operation rewrites the
manifest to itself. -/
theorem c4_roundtrip_canonical (content b g1 f g3 a : Str)
    (h : searchSrc content = some (b, g1, f, g3, a))
    (hnod : dedupeEntries (parseEntriesT f) = parseEntriesT f)
    (hcanon : renderEntries (parseEntriesT f) = f) :
    deduplicate_sources content = some content := by
  unfold deduplicate_sources
  simp only [h]
  rw [hnod, hcanon, ← (searchSrc_decomp h).1]

/-! ## Concrete manifests for witnesses and counterexamples -/

/-- Manifest whose Sources files list holds a duplicate entry. -/
def exContent8 : Str :=
  ("x /* Sources */ = \x7bisa = PBXSourcesBuildPhase;files = (\n\t\t\t\tAAAAAAAAAAAAAAAAAAAAAAAA /* A.swift in Sources */,\n\t\t\t\tBBBBBBBBBBBBBBBBBBBBBBBB /* A.swift in Sources */,\n\t\t\t);y".toList)

/-- Files section of `exContent8`. -/
def exF8 : Str :=
  ("\n\t\t\t\tAAAAAAAAAAAAAAAAAAAAAAAA /* A.swift in Sources */,\n\t\t\t\tBBBBBBBBBBBBBBBBBBBBBBBB /* A.swift in Sources */,\n\t\t\t".toList)

/-- Text before the Sources-block match of the example manifests. -/
def exB8 : Str := ("x ".toList)

/-- Group 1 of the Sources-block match of the example manifests. -/
def exG18 : Str := ("/* Sources */ = \x7bisa = PBXSourcesBuildPhase;files = (".toList)

/-- Group 3 of the Sources-block match. -/
def exG38 : Str := (");").toList

/-- Text after the Sources-block match of the example manifests. -/
def exA8 : Str := ("y".toList)

/-- Witness for C8 at a concrete duplicated manifest. -/
theorem c8_witness :
    deduplicate_sources exContent8
      = some (exB8 ++ exG18 ++ renderEntries (dedupeEntries (parseEntriesT exF8)) ++ exG38 ++ exA8) ∧
    deduplicate_sources
        (exB8 ++ exG18 ++ renderEntries (dedupeEntries (parseEntriesT exF8)) ++ exG38 ++ exA8)
      = some (exB8 ++ exG18 ++ renderEntries (dedupeEntries (parseEntriesT exF8)) ++ exG38 ++ exA8) :=
  c8_dedupe_idempotent exContent8 exB8 exG18 exF8 exG38 exA8 (by decide) (by decide)

/-- Manifest with a single, duplicate-free files entry lacking its trailing
comma (a legal pbxproj spelling, since the entry pattern ends `,?`). -/
def exContent4 : Str :=
  ("x /* Sources */ = \x7bisa = PBXSourcesBuildPhase;files = (\n\t\t\t\tAAAAAAAAAAAAAAAAAAAAAAAA /* A.swift in Sources */\n\t\t\t);y".toList)

/-- Files section of `exContent4`. -/
def exF4 : Str :=
  ("\n\t\t\t\tAAAAAAAAAAAAAAAAAAAAAAAA /* A.swift in Sources */\n\t\t\t".toList)

/-- Counterexample to C4: the files list of `exContent4` holds no duplicate
(deduplication leaves its entry list unchanged, so zero mutations apply),
yet the operation rewrites the manifest and the result is not byte-identical
to the input — the section is normalised to the canonical trailing-comma
form. -/
theorem c4_counterexample :
    dedupeEntries (parseEntriesT exF4) = parseEntriesT exF4 ∧
    (deduplicate_sources exContent4).isSome = true ∧
    deduplicate_sources exContent4 ≠ some exContent4 := by decide

/-- Canonical-form variant of `exContent4` (trailing comma present). -/
def exContent4c : Str :=
  ("x /* Sources */ = \x7bisa = PBXSourcesBuildPhase;files = (\n\t\t\t\tAAAAAAAAAAAAAAAAAAAAAAAA /* A.swift in Sources */,\n\t\t\t);y".toList)

/-- Files section of `exContent4c`. -/
def exF4c : Str :=
  ("\n\t\t\t\tAAAAAAAAAAAAAAAAAAAAAAAA /* A.swift in Sources */,\n\t\t\t".toList)

/-- Witness for the amended C4 at a concrete canonical manifest. -/
theorem c4_witness : deduplicate_sources exContent4c = some exContent4c :=
  c4_roundtrip_canonical exContent4c exB8 exG18 exF4c exG38 exA8
    (by decide) (by decide) (by decide)

/-- Witness for C10 at a concrete manifest: the decomposition and the
spliced result. -/
theorem c10_witness :
    exContent4c = exB8 ++ exG18 ++ exF4c ++ exG38 ++ exA8 ∧
    deduplicate_sources exContent4c
      = some (exB8 ++ exG18 ++ renderEntries (dedupeEntries (parseEntriesT exF4c)) ++ exG38 ++ exA8) :=
  (c10_dedupe_frame exContent4c).1 exB8 exG18 exF4c exG38 exA8 (by decide)

/-! ## Identifier generation (add_missing_files.py, add_swift_files.py) -/

/-- The identifier generator of `add_missing_files.py` lines 41-43:
`uuid.uuid4().hex.upper()[:24]`.  The argument is the 32-character lowercase
hex string of the random UUID draw; the function is a pure truncation of it
and consults no set of existing identifiers. -/
def generate_uuid (h : Str) : Str := (h.map Char.toUpper).take 24

/-- The identifier generator of `add_swift_files.py` lines 26-28:
`str(uuid.uuid4()).replace('-', '').upper()[:24]`, applied to the dashed
36-character form of the random UUID draw. -/
def generate_uuid_swift (r : Str) : Str :=
  ((r.filter (fun c => c ≠ '-')).map Char.toUpper).take 24

/-- Counterexample to C2: for the concrete random draw
`0123456789abcdef0123456789abcdef` and an existing set already containing
`0123456789ABCDEF01234567`, the generated identifier is a member of the
existing set — `generate_uuid` takes no `existing` argument, performs no
collision check, and never regenerates, so the returned identifier is not
distinct from every identifier in `existing`. -/
theorem c2_counterexample :
    generate_uuid ("0123456789abcdef0123456789abcdef".toList)
      ∈ [("0123456789ABCDEF01234567".toList)] := by decide

/-- C2 amended: identifier generation is a pure truncation of the random
value with no collision check: the output is fully determined by the first
24 characters of the draw, so two draws agreeing there (and any draw whose
truncation equals an existing identifier) collide, with no regeneration
path. -/
theorem c2_truncation (h1 h2 : Str) (hpre : h1.take 24 = h2.take 24) :
    generate_uuid h1 = generate_uuid h2 := by
  unfold generate_uuid
  rw [← List.map_take, ← List.map_take, hpre]

/-- Witness for the amended C2: two different 32-character draws sharing
their first 24 characters produce the same identifier. -/
theorem c2_truncation_witness :
    ("0123456789abcdef01234567deadbeef".toList).take 24
        = ("0123456789abcdef0123456700000000".toList).take 24 ∧
    generate_uuid ("0123456789abcdef01234567deadbeef".toList)
      = generate_uuid ("0123456789abcdef0123456700000000".toList) :=
  ⟨by decide, c2_truncation _ _ (by decide)⟩

/-! ## Generic re.sub machinery for the add/remove scripts -/

/-- Lazy `.*?` followed by a literal and the group pair `([^)]*)(\);)`:
tries the shortest skip first (ascending candidates), as Python's lazy
quantifier does, retrying the whole tail on failure.  Returns the consumed
middle (skipped text plus the literal), group 2 and the remainder after
`);`. -/
def lazyLitParen (lit : Str) (s : Str) : Option (Str × Str × Str) :=
  firstSome
    (fun j =>
      match dropLit lit (s.drop j) with
      | none => none
      | some u =>
          match dropLit (");".toList) (u.dropWhile (fun c => c ≠ ')')) with
          | some rest => some (s.take j ++ lit, u.takeWhile (fun c => c ≠ ')'), rest)
          | none => none)
    (List.range (lenT s + 1))

/-- Replacement of every non-overlapping match (`re.sub` semantics):
`m` yields the three groups and the remainder, `f2` rewrites group 2,
groups 1 and 3 are kept.  Fuel `≥ length` suffices because every matcher
used consumes at least one character. -/
def subMatches (m : Str → Option (Str × Str × Str × Str)) (f2 : Str → Str) :
    Nat → Str → Str
  | 0, s => s
  | _ + 1, [] => []
  | n + 1, s@(c :: t) =>
      match m s with
      | some (g1, g2, g3, rest) => g1 ++ f2 g2 ++ g3 ++ subMatches m f2 n rest
      | none => c :: subMatches m f2 n t

/-- `re.sub` at standard fuel. -/
def subMatchesT (m : Str → Option (Str × Str × Str × Str)) (f2 : Str → Str) (s : Str) : Str :=
  subMatches m f2 (lenT s) s

/-! ## fix_storage_scope.py — addFile with a substring already-present check -/

/-- Matcher for `(/\* Sources \*/ = \{\s*isa = PBXSourcesBuildPhase;.*?files
= \()([^)]*)(\);)` of `fix_storage_scope.py` line 40 (also
`add_presleeplog.py` line 50 without the `\s*`). -/
def storageSrcMatchAt (s : Str) : Option (Str × Str × Str × Str) :=
  match dropLit ("/* Sources */ = \x7b".toList) s with
  | none => none
  | some s1 =>
      match dropLit ("isa = PBXSourcesBuildPhase;".toList) (s1.dropWhile isPySpace) with
      | none => none
      | some s2 =>
          match lazyLitParen ("files = (".toList) s2 with
          | none => none
          | some (mid, g2, rest) =>
              some (("/* Sources */ = \x7b".toList) ++ s1.takeWhile isPySpace ++
                      ("isa = PBXSourcesBuildPhase;".toList) ++ mid,
                    g2, (");").toList, rest)

/-- Matcher for `(F01 /\* DoseTap \*/ = \{.*?children = \()([^)]*)(\);)`
of `fix_storage_scope.py` line 44 (also `fix_all_missing_files.py`
line 33). -/
def groupF01MatchAt (s : Str) : Option (Str × Str × Str × Str) :=
  match dropLit ("F01 /* DoseTap */ = \x7b".toList) s with
  | none => none
  | some s1 =>
      match lazyLitParen ("children = (".toList) s1 with
      | none => none
      | some (mid, g2, rest) =>
          some (("F01 /* DoseTap */ = \x7b".toList) ++ mid, g2, (");").toList, rest)

/-- `add_file_to_project` of `fix_storage_scope.py`: skip (returning `none`,
no write) when `filename in content`; otherwise insert the build entry at
the PBXBuildFile section end, the file reference at the PBXFileReference
section end, and append to the Sources files list and the F01 group
children via `re.sub`.  `fileId`/`buildId` stand for the two
`generate_uuid()` draws. -/
def add_file_storage (fileId buildId filename rel content : Str) : Option Str :=
  if subStr filename content then none
  else
    some
      (subMatchesT groupF01MatchAt
        (fun g2 => g2 ++ ('\n' :: ("\t\t\t\t".toList) ++ fileId ++ (" /* ".toList) ++ filename ++ (" */,".toList)))
        (subMatchesT storageSrcMatchAt
          (fun g2 => g2 ++ ('\n' :: ("\t\t\t\t".toList) ++ buildId ++ (" /* ".toList) ++ filename ++ (" in Sources */,".toList)))
          (((fun c1 =>
              pyTakeTo c1 (pyFind ("/* End PBXFileReference section */".toList) c1) ++
                (("\t\t".toList) ++ fileId ++ (" /* ".toList) ++ filename ++
                  (" */ = \x7bisa = PBXFileReference; lastKnownFileType = sourcecode.swift; path = \"".toList) ++
                  rel ++ ("\"; sourceTree = \"<group>\"; \x7d;".toList)) ++ ('\n' :: []) ++
                pyDropFrom c1 (pyFind ("/* End PBXFileReference section */".toList) c1))
            (pyTakeTo content (pyFind ("/* End PBXBuildFile section */".toList) content) ++
              (("\t\t".toList) ++ buildId ++ (" /* ".toList) ++ filename ++
                (" in Sources */ = \x7bisa = PBXBuildFile; fileRef = ".toList) ++ fileId ++
                (" /* ".toList) ++ filename ++ (" */; \x7d;".toList)) ++ ('\n' :: []) ++
              pyDropFrom content (pyFind ("/* End PBXBuildFile section */".toList) content))))))

/-- C9: the already-present check is a plain substring test over the whole
manifest text: whenever the filename occurs anywhere as a substring —
inside a comment, in an unrelated section, or as part of a longer filename —
the add operation performs no insertion and reports the file as already
present (returns without writing). -/
theorem c9_substring_skip (fileId buildId filename rel content : Str)
    (h : subStr filename content = true) :
    add_file_storage fileId buildId filename rel content = none := by
  unfold add_file_storage
  rw [if_pos h]

/-- Manifest text that merely mentions a longer filename containing
`PreSleepLogView.swift` in a comment. -/
def exContent9 : Str :=
  ("// see MyPreSleepLogView.swift for details\n/* End PBXBuildFile section */\n/* End PBXFileReference section */\n".toList)

/-- Witness for C9: the filename occurs only as part of a longer name
inside a comment, yet the operation skips. -/
theorem c9_witness :
    subStr ("PreSleepLogView.swift".toList) exContent9 = true ∧
    add_file_storage ("AAAAAAAAAAAAAAAAAAAAAAAA".toList) ("BBBBBBBBBBBBBBBBBBBBBBBB".toList)
      ("PreSleepLogView.swift".toList) ("Views/PreSleepLogView.swift".toList) exContent9 = none :=
  ⟨by decide, c9_substring_skip _ _ _ _ _ (by decide)⟩

/-! ## clean_project.py — removal of build entries, unconditional -/

/-- Deletion of every non-overlapping match (`re.sub(pattern, '', content)`
semantics): the matcher returns the remainder after the match. -/
def subDelR (m : Str → Option Str) : Nat → Str → Str
  | 0, s => s
  | _ + 1, [] => []
  | n + 1, s@(c :: t) =>
      match m s with
      | some rest => subDelR m n rest
      | none => c :: subDelR m n t

/-- Deletion scan at standard fuel. -/
def subDelRT (m : Str → Option Str) (s : Str) : Str := subDelR m (lenT s) s

/-- Does the matcher succeed at any position of the text? -/
def hasDel (m : Str → Option Str) : Str → Bool
  | [] => (m []).isSome
  | s@(_ :: t) => (m s).isSome || hasDel m t

/-- Matcher for the PBXBuildFile-line pattern of `clean_project.py` line 37:
`\t\t[A-F0-9]{24} /\* {f} in Sources \*/ = \{isa = PBXBuildFile[^}]+\};\n`.
Returns the remainder after the match. -/
def matchBuildLine (f : Str) (s : Str) : Option Str :=
  match dropLit ("\t\t".toList) s with
  | none => none
  | some s1 =>
      match takeClass isHexU 24 s1 with
      | none => none
      | some (_, s2) =>
          match dropLit ((" /* ".toList) ++ f ++ (" in Sources */ = \x7bisa = PBXBuildFile".toList)) s2 with
          | none => none
          | some s3 =>
              if (s3.takeWhile (fun c => c ≠ '}')).isEmpty then none
              else dropLit ("\x7d;\n".toList) (s3.dropWhile (fun c => c ≠ '}'))

/-- Matcher for the files-list-line pattern of `clean_project.py` line 40:
`\t+[A-F0-9]{24} /\* {f} in Sources \*/,?\n`. -/
def matchFilesLine (f : Str) (s : Str) : Option Str :=
  if (s.takeWhile (fun c => c = '\t')).isEmpty then none
  else
    match takeClass isHexU 24 (s.dropWhile (fun c => c = '\t')) with
    | none => none
    | some (_, s2) =>
        match dropLit ((" /* ".toList) ++ f ++ (" in Sources */".toList)) s2 with
        | none => none
        | some s3 =>
            match s3 with
            | ',' :: '\n' :: r => some r
            | '\n' :: r => some r
            | _ => none

/-- The REMOVE_FROM_BUILD list of `clean_project.py`. -/
def remove_from_build : List Str :=
  [("SnoozeController.swift".toList), ("NightAnalyzer.swift".toList), ("Models_Event.swift".toList),
   ("Health.swift".toList), ("EventLogger.swift".toList), ("ReminderScheduler.swift".toList),
   ("EventStoreWithSync.swift".toList), ("SetupWizardEnhanced.swift".toList),
   ("ActionableNotifications.swift".toList), ("ErrorHandler.swift".toList), ("ErrorDisplayView.swift".toList),
   ("ExportView.swift".toList), ("DashboardConfig.swift".toList), ("UnifiedModels.swift".toList),
   ("InventoryManagement.swift".toList), ("HistoryView.swift".toList), ("UnifiedStore.swift".toList),
   ("UndoSnackbar.swift".toList), ("TimeZoneUI.swift".toList), ("Storage_Store.swift".toList),
   ("EventStoreAdapter.swift".toList), ("SupportBundleExport.swift".toList),
   ("FetchHelpers.swift".toList), ("PersistentStore.swift".toList), ("CSVExporter.swift".toList),
   ("JSONMigrator.swift".toList), ("EventStoreCoreData.swift".toList),
   ("ContentView_Enhanced.swift".toList), ("ContentView_Clean.swift".toList),
   ("WHOOP.swift".toList), ("EnhancedSettings.swift".toList), ("Secrets.swift".toList),
   ("TimeZoneMonitor.swift".toList), ("DevelopmentHelper.swift".toList)]

/-- One per-filename pass of `clean_project`: remove the PBXBuildFile line,
then the files-list line. -/
def cleanPass (c : Str) (f : Str) : Str := subDelRT (matchFilesLine f) (subDelRT (matchBuildLine f) c)

/-- `clean_project` of `clean_project.py` lines 27-46: for every listed
filename, delete its build-file entry and its files-list membership, then
write the result unconditionally (the function has no failure path and no
cascade flag). -/
def clean_project (content : Str) : Str := remove_from_build.foldl cleanPass content

theorem matchBuildLine_lt {f s r : Str} (h : matchBuildLine f s = some r) :
    r.length < s.length := by
  unfold matchBuildLine at h
  split at h
  · exact absurd h (by simp)
  · rename_i s1 h1
    split at h
    · exact absurd h (by simp)
    · rename_i u s2 h2
      split at h
      · exact absurd h (by simp)
      · rename_i s3 h3
        split at h
        · exact absurd h (by simp)
        · rename_i hrun
          have e1 := dropLit_length h1
          obtain ⟨e2, e2l, _⟩ := takeClass_eq_append (p := isHexU) (n := 24) h2
          have e2len : s1.length = 24 + s2.length := by
            rw [e2]
            simp [e2l, Nat.add_comm]
          have e3 := dropLit_length h3
          have e4 : (s3.dropWhile (fun c => c ≠ '}')).length = 3 + r.length :=
            dropLit_length h
          have e5 : (s3.dropWhile (fun c => c ≠ '}')).length ≤ s3.length :=
            len_dropWhile_le _ _
          simp only [List.length_cons, List.length_append, List.length_nil] at e1 e3
          omega

theorem matchFilesLine_lt {f s r : Str} (h : matchFilesLine f s = some r) :
    r.length < s.length := by
  unfold matchFilesLine at h
  split at h
  · exact absurd h (by simp)
  · rename_i htab
    split at h
    · exact absurd h (by simp)
    · rename_i u s2 h2
      split at h
      · exact absurd h (by simp)
      · rename_i s3 h3
        have hsplit := congrArg List.length
          (List.takeWhile_append_dropWhile (p := fun c => decide (c = '\t')) (l := s))
        simp only [List.length_append] at hsplit
        have htw : 1 ≤ (s.takeWhile (fun c => c = '\t')).length := by
          rcases heq : s.takeWhile (fun c => c = '\t') with _ | ⟨c, cs⟩
          · rw [heq] at htab
            simp at htab
          · simp
        obtain ⟨e2, e2l, _⟩ := takeClass_eq_append (p := isHexU) (n := 24) h2
        have e2len : (s.dropWhile (fun c => c = '\t')).length = 24 + s2.length := by
          rw [e2]
          simp [e2l, Nat.add_comm]
        have e3 := dropLit_length h3
        have hr : 1 ≤ s3.length - r.length ∧ r.length ≤ s3.length := by
          split at h
          · injection h with hh
            subst hh
            simp only [List.length_cons]
            omega
          · injection h with hh
            subst hh
            simp only [List.length_cons]
            omega
          · exact absurd h (by simp)
        obtain ⟨hr1, hr2⟩ := hr
        omega

theorem subDelR_le (m : Str → Option Str)
    (hm : ∀ s r, m s = some r → r.length ≤ s.length) :
    ∀ (fuel : Nat) (s : Str), (subDelR m fuel s).length ≤ s.length := by
  intro fuel
  induction fuel with
  | zero => intro s; simp [subDelR]
  | succ n ih =>
      intro s
      cases s with
      | nil => simp [subDelR]
      | cons c t =>
          cases hms : m (c :: t) with
          | some rest =>
              simp only [subDelR, hms]
              exact le_trans (ih rest) (hm _ _ hms)
          | none =>
              simp only [subDelR, hms, List.length_cons]
              exact Nat.succ_le_succ (ih t)

theorem subDelR_lt (m : Str → Option Str)
    (hm : ∀ s r, m s = some r → r.length < s.length) :
    ∀ (fuel : Nat) (s : Str), hasDel m s = true → s.length ≤ fuel →
      (subDelR m fuel s).length < s.length := by
  intro fuel
  induction fuel with
  | zero =>
      intro s hdel hlen
      have hs : s = [] := by
        cases s with
        | nil => rfl
        | cons c t => simp at hlen
      subst hs
      cases hm0 : m [] with
      | some r => exact absurd (hm _ _ hm0) (by simp)
      | none => simp [hasDel, hm0] at hdel
  | succ n ih =>
      intro s hdel hlen
      cases s with
      | nil =>
          cases hm0 : m [] with
          | some r => exact absurd (hm _ _ hm0) (by simp)
          | none => simp [hasDel, hm0] at hdel
      | cons c t =>
          cases hms : m (c :: t) with
          | some rest =>
              simp only [subDelR, hms]
              exact lt_of_le_of_lt
                (subDelR_le m (fun s r h => le_of_lt (hm s r h)) n rest) (hm _ _ hms)
          | none =>
              simp only [subDelR, hms, List.length_cons]
              have hdt : hasDel m t = true := by
                simpa [hasDel, hms] using hdel
              simp only [List.length_cons] at hlen
              exact Nat.succ_lt_succ (ih t hdt (by omega))

theorem cleanPass_le (c f : Str) : (cleanPass c f).length ≤ c.length := by
  unfold cleanPass subDelRT
  exact le_trans
    (subDelR_le _ (fun s r h => le_of_lt (matchFilesLine_lt h)) _ _)
    (subDelR_le _ (fun s r h => le_of_lt (matchBuildLine_lt h)) _ _)

theorem foldl_cleanPass_le : ∀ (fs : List Str) (c : Str),
    (List.foldl cleanPass c fs).length ≤ c.length := by
  intro fs
  induction fs with
  | nil => intro c; simp
  | cons f fs' ih =>
      intro c
      simp only [List.foldl_cons]
      exact le_trans (ih (cleanPass c f)) (cleanPass_le c f)

/-- C5 amended: removal never fails with DependentsExist — `clean_project`
is a total function with no failure path and no cascade flag; on any
manifest containing a canonical PBXBuildFile line for
`SnoozeController.swift` (a file with a dependent BuildEntry), it deletes
dependent entries unconditionally, so the resulting text is not
byte-identical to the text before the call. -/
theorem c5_unconditional (content : Str)
    (h : hasDel (matchBuildLine ("SnoozeController.swift".toList)) content = true) :
    clean_project content ≠ content := by
  intro heq
  have hstep1 : (subDelRT (matchBuildLine ("SnoozeController.swift".toList)) content).length
      < content.length := by
    unfold subDelRT
    rw [lenT_eq]
    exact subDelR_lt _ (fun s r hh => matchBuildLine_lt hh) _ _ h (le_refl _)
  have hstep2 : (cleanPass content ("SnoozeController.swift".toList)).length < content.length := by
    unfold cleanPass
    refine lt_of_le_of_lt ?_ hstep1
    unfold subDelRT
    exact subDelR_le _ (fun s r hh => le_of_lt (matchFilesLine_lt hh)) _ _
  have hrest : (clean_project content).length < content.length := by
    have h0 : clean_project content = List.foldl cleanPass content remove_from_build := rfl
    rw [h0, show remove_from_build = ("SnoozeController.swift".toList) :: remove_from_build.tail from rfl,
      List.foldl_cons]
    exact lt_of_le_of_lt (foldl_cleanPass_le _ _) hstep2
  rw [heq] at hrest
  omega

/-- Manifest declaring SnoozeController.swift with a dependent BuildEntry
registered in a build phase's files list. -/
def exContent5 : Str :=
  ("header\n\t\tAAAAAAAAAAAAAAAAAAAAAAAA /* SnoozeController.swift in Sources */ = \x7bisa = PBXBuildFile; fileRef = BBBBBBBBBBBBBBBBBBBBBBBB /* SnoozeController.swift */; \x7d;\n\t\t\t\tAAAAAAAAAAAAAAAAAAAAAAAA /* SnoozeController.swift in Sources */,\ntail\n".toList)

set_option maxHeartbeats 4000000 in
/-- Counterexample to C5: on `exContent5` — a manifest where the file has
an active BuildEntry membership — the removal operation of
`clean_project.py` does not fail with DependentsExist (it is total and has
no cascade parameter) and does not leave the manifest byte-identical: it
rewrites it with the dependent entries deleted. -/
theorem c5_counterexample : clean_project exContent5 ≠ exContent5 := by decide

set_option maxHeartbeats 4000000 in
/-- Witness for the amended C5 at the concrete manifest. -/
theorem c5_witness :
    hasDel (matchBuildLine ("SnoozeController.swift".toList)) exContent5 = true ∧
    clean_project exContent5 ≠ exContent5 :=
  ⟨by decide, c5_unconditional exContent5 (by decide)⟩

/-! ## add_swift_files.py — addFile with no already-present check -/

/-- Python `'\n'.join(l)`. -/
def joinNL : List Str → Str
  | [] => []
  | [x] => x
  | x :: rest => x ++ '\n' :: joinNL rest

/-- Python `s.split()[0]`: first whitespace-delimited token. -/
def pySplitHead (s : Str) : Str :=
  (s.dropWhile isPySpace).takeWhile (fun c => !(isPySpace c))

/-- Leftmost match of a three-group pattern (`re.search` semantics),
returning also the text before and after the match; the accumulator keeps
the scan tail-recursive. -/
def searchPatAcc (m : Str → Option (Str × Str × Str × Str)) :
    Str → Str → Option (Str × Str × Str × Str × Str)
  | _, [] => none
  | acc, s@(c :: t) =>
      match m s with
      | some (g1, g2, g3, rest) => some (acc.reverse, g1, g2, g3, rest)
      | none => searchPatAcc m (c :: acc) t

/-- Leftmost match of a three-group pattern. -/
def searchPat (m : Str → Option (Str × Str × Str × Str)) (s : Str) :
    Option (Str × Str × Str × Str × Str) :=
  searchPatAcc m [] s

/-- Matcher for `(children = \(\s*)(.*?)(\s*\);)` of `add_swift_files.py`
line 87: greedy `\s*` into group 1, lazy group 2, then `\s*\);`. -/
def childMatchAt (s : Str) : Option (Str × Str × Str × Str) :=
  match dropLit ("children = (".toList) s with
  | none => none
  | some s1 =>
      firstSome
        (fun k =>
          match dropLit (");".toList)
              (((s1.dropWhile isPySpace).drop k).dropWhile isPySpace) with
          | some rest =>
              some (("children = (".toList) ++ s1.takeWhile isPySpace,
                    (s1.dropWhile isPySpace).take k,
                    ((s1.dropWhile isPySpace).drop k).takeWhile isPySpace ++ (");").toList,
                    rest)
          | none => none)
        (List.range (lenT (s1.dropWhile isPySpace) + 1))

/-- Matcher for the Sources-phase pattern of `add_swift_files.py` line 97.
The pattern source reads `(/* Sources \*/ = \{\s*isa = PBXSourcesBuildPhase;
\s*buildActionMask = [^;]*;\s*files = \(\s*)(.*?)(\s*\);)`; its leading
`/*` is an unescaped `/` under a `*` quantifier, so it matches zero or more
slashes followed by the literal `' Sources */ = {'`. -/
def swiftSrcMatchAt (s : Str) : Option (Str × Str × Str × Str) :=
  match dropLit (" Sources */ = \x7b".toList) (s.dropWhile (fun c => c = '/')) with
  | none => none
  | some s1 =>
      match dropLit ("isa = PBXSourcesBuildPhase;".toList) (s1.dropWhile isPySpace) with
      | none => none
      | some s2 =>
          match dropLit ("buildActionMask = ".toList) (s2.dropWhile isPySpace) with
          | none => none
          | some s3 =>
              match dropLit (";").toList ((s3.dropWhile (fun c => c ≠ ';'))) with
              | none => none
              | some s4 =>
                  match dropLit ("files = (".toList) (s4.dropWhile isPySpace) with
                  | none => none
                  | some s5 =>
                      firstSome
                        (fun k =>
                          match dropLit (");".toList)
                              ((((s5.dropWhile isPySpace).drop k).dropWhile isPySpace)) with
                          | some rest =>
                              some ((s.takeWhile (fun c => c = '/')) ++
                                      (" Sources */ = \x7b".toList) ++ s1.takeWhile isPySpace ++
                                      ("isa = PBXSourcesBuildPhase;".toList) ++ s2.takeWhile isPySpace ++
                                      ("buildActionMask = ".toList) ++ s3.takeWhile (fun c => c ≠ ';') ++
                                      (";").toList ++ s4.takeWhile isPySpace ++
                                      ("files = (".toList) ++ s5.takeWhile isPySpace,
                                    (s5.dropWhile isPySpace).take k,
                                    (((s5.dropWhile isPySpace).drop k).takeWhile isPySpace) ++ (");").toList,
                                    rest)
                          | none => none)
                        (List.range (lenT (s5.dropWhile isPySpace) + 1))

/-- Insertion of `T` at the position of `marker` (`content.find(marker)`,
then `content[:i] + T + content[i:]`, negative-index convention included). -/
def insertAt (marker T c : Str) : Str :=
  pyTakeTo c (pyFind marker c) ++ T ++ pyDropFrom c (pyFind marker c)

/-- Append `new` to group 2 of the leftmost match of `m`, keeping groups 1
and 3 (the splice `content[:start2] + group2 + new + content[end2:]` of
`add_swift_files.py` lines 88-94 and 98-110); no match leaves the text
unchanged. -/
def appendInGroup (m : Str → Option (Str × Str × Str × Str)) (new c : Str) : Str :=
  match searchPat m c with
  | some (b, g1, g2, g3, rest) => b ++ g1 ++ (g2 ++ new) ++ g3 ++ rest
  | none => c

/-- The hardcoded list of `add_swift_files.py` lines 6-24. -/
def missing_files16 : List Str :=
  [("EventStore.swift".toList), ("EventStoreAdapter.swift".toList), ("UndoManager.swift".toList),
   ("TimeEngine.swift".toList), ("SnoozeController.swift".toList), ("OfflineQueue.swift".toList),
   ("AccessibilitySupport.swift".toList), ("DashboardView.swift".toList), ("DoseTapCore.swift".toList),
   ("UndoSnackbar.swift".toList), ("UndoStateManager.swift".toList),
   ("Views/UndoSnackbarView.swift".toList), ("Views/MedicationSettingsView.swift".toList),
   ("Views/MedicationPickerView.swift".toList), ("Views/MorningCheckInView.swift".toList),
   ("Views/PreSleepLogView.swift".toList)]

/-- Per-file uuid pair generation of `add_swift_files.py` lines 58-59:
`build_uuid = "AAAAAAAA" + generate_uuid()[:16]` and likewise for the file
uuid, consuming two draws of the stream per file. -/
def swiftUuidPairs (gen : Nat → Str) : Nat → List Str → List (Str × Str × Str)
  | _, [] => []
  | k, fn :: rest =>
      (("AAAAAAAA".toList) ++ (generate_uuid_swift (gen k)).take 16,
       ("AAAAAAAA".toList) ++ (generate_uuid_swift (gen (k + 1))).take 16,
       fn) :: swiftUuidPairs gen (k + 2) rest

/-- `add_files_to_project` of `add_swift_files.py` lines 40-112: build the
three entry lists for all sixteen hardcoded files, insert them at the
PBXBuildFile and PBXFileReference section ends, append to the first
`children = (` group and to the Sources build phase.  No already-present
check of any kind is performed.  `gen` is the stream of `str(uuid.uuid4())`
draws. -/
def add_files_to_project (gen : Nat → Str) (content : Str) : Str :=
  let pairs := swiftUuidPairs gen 0 missing_files16
  let build_entries := pairs.map (fun p =>
    ("\t\t".toList) ++ p.1 ++ (" /* ".toList) ++ p.2.2 ++
      (" in Sources */ = \x7bisa = PBXBuildFile; fileRef = ".toList) ++ p.2.1 ++
      (" /* ".toList) ++ p.2.2 ++ (" */; \x7d;".toList))
  let file_entries := pairs.map (fun p =>
    ("\t\t".toList) ++ p.2.1 ++ (" /* ".toList) ++ p.2.2 ++
      (" */ = \x7bisa = PBXFileReference; lastKnownFileType = sourcecode.swift; path = ".toList) ++
      p.2.2 ++ ("; sourceTree = \"<group>\"; \x7d;".toList))
  let children_entries := pairs.map (fun p =>
    ("\t\t\t\t".toList) ++ p.2.1 ++ (" /* ".toList) ++ p.2.2 ++ (" */,".toList))
  let source_entries := pairs.zip build_entries |>.map (fun q =>
    ("\t\t\t\t".toList) ++ pySplitHead q.2 ++ (" /* ".toList) ++ q.1.2.2 ++
      (" in Sources */,".toList))
  appendInGroup swiftSrcMatchAt ('\n' :: joinNL source_entries)
    (appendInGroup childMatchAt ('\n' :: joinNL children_entries)
      (insertAt ("/* End PBXFileReference section */".toList)
        ('\n' :: joinNL file_entries ++ ('\n' :: []))
        (insertAt ("/* End PBXBuildFile section */".toList)
          ('\n' :: joinNL build_entries ++ ('\n' :: [])) content)))

/-! ## add_files_to_project is never a no-op -/

theorem pySlice_len (s : Str) (i : Int) :
    (pyTakeTo s i).length + (pyDropFrom s i).length = s.length := by
  unfold pyTakeTo pyDropFrom
  by_cases h : i < 0 <;> simp [h, List.length_take, List.length_drop] <;> omega

theorem searchPatAcc_decomp {m : Str → Option (Str × Str × Str × Str)}
    (hm : ∀ s g1 g2 g3 rest, m s = some (g1, g2, g3, rest) → s = g1 ++ g2 ++ g3 ++ rest) :
    ∀ (s acc b g1 g2 g3 rest : Str),
      searchPatAcc m acc s = some (b, g1, g2, g3, rest) →
      acc.reverse ++ s = b ++ g1 ++ g2 ++ g3 ++ rest := by
  intro s
  induction s with
  | nil => intro acc b g1 g2 g3 rest h; simp [searchPatAcc] at h
  | cons c t ih =>
      intro acc b g1 g2 g3 rest h
      unfold searchPatAcc at h
      split at h
      · rename_i gg1 gg2 gg3 rr heqM
        simp only [Option.some.injEq, Prod.mk.injEq] at h
        obtain ⟨h0, h1, h2, h3, h4⟩ := h
        subst h0; subst h1; subst h2; subst h3; subst h4
        rw [hm _ _ _ _ _ heqM]
        simp [List.append_assoc]
      · have hstep := ih (c :: acc) b g1 g2 g3 rest h
        rw [← hstep]
        simp

theorem searchPat_decomp {m : Str → Option (Str × Str × Str × Str)}
    (hm : ∀ s g1 g2 g3 rest, m s = some (g1, g2, g3, rest) → s = g1 ++ g2 ++ g3 ++ rest)
    {s b g1 g2 g3 rest : Str}
    (h : searchPat m s = some (b, g1, g2, g3, rest)) :
    s = b ++ g1 ++ g2 ++ g3 ++ rest := by
  have := searchPatAcc_decomp hm s [] b g1 g2 g3 rest h
  simpa using this

theorem childMatchAt_decomp :
    ∀ (s g1 g2 g3 rest : Str), childMatchAt s = some (g1, g2, g3, rest) →
      s = g1 ++ g2 ++ g3 ++ rest := by
  intro s g1 g2 g3 rest h
  unfold childMatchAt at h
  split at h
  · exact absurd h (by simp)
  · rename_i s1 heqA
    obtain ⟨k, _, hfk⟩ := firstSome_eq_some h
    split at hfk
    · rename_i rr heqB
      simp only [Option.some.injEq, Prod.mk.injEq] at hfk
      obtain ⟨h1, h2, h3, h4⟩ := hfk
      subst h1; subst h2; subst h3; subst h4
      rw [dropLit_eq_append heqA]
      conv_lhs =>
        rw [← List.takeWhile_append_dropWhile (p := isPySpace) (l := s1),
          ← List.take_append_drop k (s1.dropWhile isPySpace),
          ← List.takeWhile_append_dropWhile (p := isPySpace)
            (l := (s1.dropWhile isPySpace).drop k)]
      rw [dropLit_eq_append heqB]
      simp
    · exact absurd hfk (by simp)

theorem swiftSrcMatchAt_decomp :
    ∀ (s g1 g2 g3 rest : Str), swiftSrcMatchAt s = some (g1, g2, g3, rest) →
      s = g1 ++ g2 ++ g3 ++ rest := by
  intro s g1 g2 g3 rest h
  unfold swiftSrcMatchAt at h
  split at h
  · exact absurd h (by simp)
  · rename_i s1 heqA
    split at h
    · exact absurd h (by simp)
    · rename_i s2 heqB
      split at h
      · exact absurd h (by simp)
      · rename_i s3 heqC
        split at h
        · exact absurd h (by simp)
        · rename_i s4 heqD
          split at h
          · exact absurd h (by simp)
          · rename_i s5 heqE
            obtain ⟨k, _, hfk⟩ := firstSome_eq_some h
            split at hfk
            · rename_i rr heqF
              simp only [Option.some.injEq, Prod.mk.injEq] at hfk
              obtain ⟨h1, h2, h3, h4⟩ := hfk
              subst h1; subst h2; subst h3; subst h4
              conv_lhs =>
                rw [← List.takeWhile_append_dropWhile (p := fun c => c = '/') (l := s)]
              rw [dropLit_eq_append heqA]
              conv_lhs =>
                rw [← List.takeWhile_append_dropWhile (p := isPySpace) (l := s1)]
              rw [dropLit_eq_append heqB]
              conv_lhs =>
                rw [← List.takeWhile_append_dropWhile (p := isPySpace) (l := s2)]
              rw [dropLit_eq_append heqC]
              conv_lhs =>
                rw [← List.takeWhile_append_dropWhile (p := fun c => c ≠ ';') (l := s3)]
              rw [dropLit_eq_append heqD]
              conv_lhs =>
                rw [← List.takeWhile_append_dropWhile (p := isPySpace) (l := s4)]
              rw [dropLit_eq_append heqE]
              conv_lhs =>
                rw [← List.takeWhile_append_dropWhile (p := isPySpace) (l := s5),
                  ← List.take_append_drop k (s5.dropWhile isPySpace),
                  ← List.takeWhile_append_dropWhile (p := isPySpace)
                    (l := (s5.dropWhile isPySpace).drop k)]
              rw [dropLit_eq_append heqF]
              simp
            · exact absurd hfk (by simp)

theorem insertAt_len (marker T c : Str) :
    (insertAt marker T c).length = c.length + T.length := by
  unfold insertAt
  have := pySlice_len c (pyFind marker c)
  simp only [List.length_append]
  omega

theorem appendInGroup_ge {m : Str → Option (Str × Str × Str × Str)}
    (hm : ∀ s g1 g2 g3 rest, m s = some (g1, g2, g3, rest) → s = g1 ++ g2 ++ g3 ++ rest)
    (new c : Str) : c.length ≤ (appendInGroup m new c).length := by
  unfold appendInGroup
  cases hs : searchPat m c with
  | none => simp
  | some q =>
      obtain ⟨b, g1, g2, g3, rest⟩ := q
      have hd := searchPat_decomp hm hs
      simp only [hd, List.length_append]
      omega

/-- Counterexample core for C1: the batch-add of `add_swift_files.py`
always inserts its build-file, file-reference, group and build-phase
entries, growing the manifest — it is never a no-op, whatever the manifest
already contains and whatever the random draws are. -/
theorem add_files_grows (gen : Nat → Str) (content : Str) :
    content.length + 2 ≤ (add_files_to_project gen content).length := by
  simp only [add_files_to_project]
  refine le_trans ?_ (appendInGroup_ge swiftSrcMatchAt_decomp _ _)
  refine le_trans ?_ (appendInGroup_ge childMatchAt_decomp _ _)
  rw [insertAt_len, insertAt_len]
  simp only [List.length_cons, List.length_append]
  omega


/-! ## add_missing_files.py — main's already-present filter -/

/-- Matcher for one occurrence of the pattern `/\* (\w+\.swift) \*/` of
`get_existing_files` (`add_missing_files.py` lines 53-56); returns the
captured filename and the remainder after the match. -/
def swiftRefAt (s : Str) : Option (Str × Str) :=
  match dropLit ("/* ".toList) s with
  | none => none
  | some s1 =>
      if (s1.takeWhile isWordC).isEmpty then none
      else
        match dropLit (".swift */".toList) (s1.dropWhile isWordC) with
        | some rest => some (s1.takeWhile isWordC ++ (".swift".toList), rest)
        | none => none

/-- Fuel-indexed findall scan for `get_existing_files`. -/
def scanRefs : Nat → Str → List Str
  | 0, _ => []
  | _ + 1, [] => []
  | n + 1, s@(_ :: t) =>
      match swiftRefAt s with
      | some (nm, rest) => nm :: scanRefs n rest
      | none => scanRefs n t

/-- `get_existing_files` of `add_missing_files.py`: every `\w+.swift` name
appearing as a `/* name */` comment anywhere in the manifest. -/
def get_existing_files (content : Str) : List Str := scanRefs (lenT content) content

/-- The MISSING_FILES list of `add_missing_files.py` lines 12-39. -/
def missing_files26 : List Str :=
  [("UserSettingsManager.swift".toList),
   ("SettingsView.swift".toList),
   ("ErrorHandler.swift".toList),
   ("EventLogger.swift".toList),
   ("ActionableNotifications.swift".toList),
   ("Health.swift".toList),
   ("WHOOP.swift".toList),
   ("HistoryView.swift".toList),
   ("ExportView.swift".toList),
   ("UndoSnackbar.swift".toList),
   ("SnoozeController.swift".toList),
   ("ReminderScheduler.swift".toList),
   ("NightAnalyzer.swift".toList),
   ("UnifiedModels.swift".toList),
   ("UnifiedStore.swift".toList),
   ("EventStoreAdapter.swift".toList),
   ("EventStoreWithSync.swift".toList),
   ("InventoryManagement.swift".toList),
   ("EnhancedSettings.swift".toList),
   ("SetupWizardEnhanced.swift".toList),
   ("TimeZoneUI.swift".toList),
   ("DashboardConfig.swift".toList),
   ("ErrorDisplayView.swift".toList),
   ("Storage_Store.swift".toList),
   ("SupportBundleExport.swift".toList),
   ("Models_Event.swift".toList)]

/-- The decision logic of `main` (`add_missing_files.py` lines 126-136):
filter MISSING_FILES down to the names not already referenced; when the
filtered list is empty, return without writing (`none`); otherwise the
listed names are added. -/
def mainDecision (content : Str) : Option (List Str) :=
  if (missing_files26.filter (fun f => !(elemB f (get_existing_files content)))).isEmpty then none
  else some (missing_files26.filter (fun f => !(elemB f (get_existing_files content))))

theorem elemB_iff {x : Str} {l : List Str} : elemB x l = true ↔ x ∈ l := by
  induction l with
  | nil => simp [elemB]
  | cons y ys ih =>
      by_cases hxy : x = y
      · subst hxy
        simp [elemB]
      · simp [elemB, hxy, ih]

/-- C1 amended: `main` of `add_missing_files.py` is idempotent because it
filters out every filename already referenced in the manifest: a name
occurring as a `/* name */` reference is never in `files_to_add`, and when
every listed name is already referenced the operation is a no-op that
writes nothing.  (The counterexample shows `add_swift_files.py`, which has
no such check, re-adds everything.) -/
theorem c1_already_present_filtered (content : Str) :
    (∀ f toAdd, mainDecision content = some toAdd → f ∈ toAdd →
        f ∉ get_existing_files content) ∧
    ((∀ f ∈ missing_files26, f ∈ get_existing_files content) →
        mainDecision content = none) := by
  constructor
  · intro f toAdd hsome hmem
    unfold mainDecision at hsome
    split at hsome
    · exact absurd hsome (by simp)
    · injection hsome with hh
      subst hh
      have := (List.mem_filter.mp hmem).2
      simp only [Bool.not_eq_true'] at this
      intro hcon
      rw [elemB_iff.mpr hcon] at this
      exact absurd this (by simp)
  · intro hall
    unfold mainDecision
    have hnil : missing_files26.filter (fun f => !(elemB f (get_existing_files content))) = [] := by
      rw [List.filter_eq_nil_iff]
      intro f hf
      simp only [Bool.not_eq_true', Bool.not_eq_false]
      exact elemB_iff.mpr (hall f hf)
    rw [if_pos (by rw [hnil]; rfl)]

/-- Manifest text referencing all twenty-six MISSING_FILES names. -/
def exContentAll26 : Str :=
  ("/* UserSettingsManager.swift */\n/* SettingsView.swift */\n/* ErrorHandler.swift */\n/* EventLogger.swift */\n/* ActionableNotifications.swift */\n/* Health.swift */\n/* WHOOP.swift */\n/* HistoryView.swift */\n/* ExportView.swift */\n/* UndoSnackbar.swift */\n/* SnoozeController.swift */\n/* ReminderScheduler.swift */\n/* NightAnalyzer.swift */\n/* UnifiedModels.swift */\n/* UnifiedStore.swift */\n/* EventStoreAdapter.swift */\n/* EventStoreWithSync.swift */\n/* InventoryManagement.swift */\n/* EnhancedSettings.swift */\n/* SetupWizardEnhanced.swift */\n/* TimeZoneUI.swift */\n/* DashboardConfig.swift */\n/* ErrorDisplayView.swift */\n/* Storage_Store.swift */\n/* SupportBundleExport.swift */\n/* Models_Event.swift */\n".toList)

/-- Witness for the amended C1: with every name already referenced, the
operation is a no-op. -/
theorem c1_filter_witness : mainDecision exContentAll26 = none :=
  (c1_already_present_filtered exContentAll26).2 (by decide)

/-- Constant stream standing for the `str(uuid.uuid4())` draws. -/
def genC1 (_ : Nat) : Str := ("01234567-89ab-cdef-0123-456789abcdef".toList)

/-- Manifest that already contains the FileDeclaration (and BuildEntry and
membership entry) for `EventStore.swift`. -/
def exContent1 : Str :=
  ("// !$*UTF8*$!\n/* Begin PBXBuildFile section */\n\t\tE0000000000000000000000B /* EventStore.swift in Sources */ = \x7bisa = PBXBuildFile; fileRef = E0000000000000000000000F /* EventStore.swift */; \x7d;\n/* End PBXBuildFile section */\n/* Begin PBXFileReference section */\n\t\tE0000000000000000000000F /* EventStore.swift */ = \x7bisa = PBXFileReference; lastKnownFileType = sourcecode.swift; path = EventStore.swift; sourceTree = \"<group>\"; \x7d;\n/* End PBXFileReference section */\n".toList)

/-- Counterexample to C1: `exContent1` already contains a FileDeclaration
named `EventStore.swift` (first conjunct), yet running the batch-add of
`add_swift_files.py` again is not a no-op — it performs no already-present
check and re-inserts an entry set for every hardcoded file, duplicating
the existing declaration. -/
theorem c1_counterexample :
    subStr ("/* EventStore.swift */ = \x7bisa = PBXFileReference".toList) exContent1 = true ∧
    add_files_to_project genC1 exContent1 ≠ exContent1 := by
  constructor
  · decide
  · intro heq
    have hgrow := add_files_grows genC1 exContent1
    rw [heq] at hgrow
    omega

/-! ## fix_all_missing_files.py — the stale-index splice bug -/

/-- Matcher for `(J01 /\* Sources \*/ = \{.*?files = \()([^)]*)(\);)` of
`fix_all_missing_files.py` line 48 with `phase_id = "J01"`. -/
def phaseJ01MatchAt (s : Str) : Option (Str × Str × Str × Str) :=
  match dropLit ("J01 /* Sources */ = \x7b".toList) s with
  | none => none
  | some s1 =>
      match lazyLitParen ("files = (".toList) s1 with
      | none => none
      | some (mid, g2, rest) =>
          some (("J01 /* Sources */ = \x7b".toList) ++ mid, g2, (");").toList, rest)

/-- Matching of an unescaped filename inside a regex: `.` is a metacharacter
matching any character except a newline; all other characters are literal.
Returns the remainder on success. -/
def matchWild : Str → Str → Option Str
  | [], s => some s
  | _, [] => none
  | p :: ps, c :: cs =>
      if p = '.' then (if c = '\n' then none else matchWild ps cs)
      else if p = c then matchWild ps cs else none

/-- The fileRef search of `fix_all_missing_files.py` line 55:
`([A-Z0-9]{24}) /\* {filename} \*/` — scan for the first position holding
24 upper-alphanumeric characters followed by the (wildcarded) comment. -/
def findFileRef (filename : Str) : Str → Option Str
  | [] => none
  | s@(_ :: t) =>
      match takeClass isUpAlnum 24 s with
      | some (u, s2) =>
          if (matchWild ((" /* ".toList) ++ filename ++ (" */".toList)) s2).isSome then some u
          else findFileRef filename t
      | none => findFileRef filename t

/-- `add_to_phase` of `fix_all_missing_files.py` lines 45-87 for the J01
phase.  `refOpt` models the enclosing `ref_section_end` local: `none` when
the early `filename in content` branch was taken and the variable was never
assigned — reading it then raises `NameError` (modelled as
`Except.error ()`) after `build_section_end` has been computed but before
any further change.  When defined, the splice uses the stale
`ref_section_end` index for the left part and `build_section_end` for the
right part, exactly as the source (its own comment says
`# This is wrong, should be build_section_end`). -/
def addToPhaseFix (buildId filename : Str) (refOpt : Option Int) (content : Str) :
    Except Unit Str :=
  if (match searchPat phaseJ01MatchAt content with
      | some (_, _, g2, _, _) => subStr filename g2
      | none => false) then Except.ok content
  else
    match findFileRef filename content with
    | none => Except.ok content
    | some fuuid =>
        match refOpt with
        | none => Except.error ()
        | some r =>
            Except.ok
              (subMatchesT phaseJ01MatchAt
                (fun g2 => g2 ++ ('\n' :: ("\t\t\t\t".toList) ++ buildId ++ (" /* ".toList) ++
                  filename ++ (" in Sources */,".toList)))
                (pyTakeTo content r ++
                  (("\t\t".toList) ++ buildId ++ (" /* ".toList) ++ filename ++
                    (" in Sources */ = \x7bisa = PBXBuildFile; fileRef = ".toList) ++ fuuid ++
                    (" /* ".toList) ++ filename ++ (" */; \x7d;".toList)) ++ ('\n' :: []) ++
                  pyDropFrom content
                    (pyFind ("/* End PBXBuildFile section */".toList) content)))

/-- `add_file_to_project` of `fix_all_missing_files.py` lines 13-94:
when the filename is absent, record `ref_section_end`, insert the file
reference there and append to the F01 group, then run `add_to_phase`;
when present, `ref_section_end` stays unassigned (`none`). -/
def add_file_fix (fileId buildId filename rel content : Str) : Except Unit Str :=
  if subStr filename content then addToPhaseFix buildId filename none content
  else
    addToPhaseFix buildId filename
      (some (pyFind ("/* End PBXFileReference section */".toList) content))
      (subMatchesT groupF01MatchAt
        (fun g2 => g2 ++ ('\n' :: ("\t\t\t\t".toList) ++ fileId ++ (" /* ".toList) ++
          filename ++ (" */,".toList)))
        (pyTakeTo content (pyFind ("/* End PBXFileReference section */".toList) content) ++
          (("\t\t".toList) ++ fileId ++ (" /* ".toList) ++ filename ++
            (" */ = \x7bisa = PBXFileReference; lastKnownFileType = sourcecode.swift; path = \"".toList) ++
            rel ++ ("\"; sourceTree = \"<group>\"; \x7d;".toList)) ++ ('\n' :: []) ++
          pyDropFrom content (pyFind ("/* End PBXFileReference section */".toList) content)))

/-- Manifest for the C6 evaluation: both section markers (PBXBuildFile end
before PBXFileReference end, as in every pbxproj), the F01 group and the
J01 Sources phase; `DoseModels.swift` absent. -/
def exContent6 : Str :=
  ("/* Begin PBXBuildFile section */\n/* End PBXBuildFile section */\n/* Begin PBXFileReference section */\n/* End PBXFileReference section */\nF01 /* DoseTap */ = \x7b\n\tisa = PBXGroup;\n\tchildren = (\n\t);\n\x7d;\nJ01 /* Sources */ = \x7b\n\tisa = PBXSourcesBuildPhase;\n\tfiles = (\n\t);\n\x7d;\n".toList)

/-- Variant of `exContent6` that already holds a file reference for
`DoseModels.swift` but no build-phase membership for it. -/
def exContent6crash : Str :=
  ("/* Begin PBXBuildFile section */\n/* End PBXBuildFile section */\n/* Begin PBXFileReference section */\n\t\t0123456789ABCDEF01234567 /* DoseModels.swift */ = \x7bisa = PBXFileReference; path = \"x\"; \x7d;\n/* End PBXFileReference section */\nF01 /* DoseTap */ = \x7b\n\tisa = PBXGroup;\n\tchildren = (\n\t);\n\x7d;\nJ01 /* Sources */ = \x7b\n\tisa = PBXSourcesBuildPhase;\n\tfiles = (\n\t);\n\x7d;\n".toList)

set_option maxHeartbeats 4000000 in
/-- C6 evaluated at its failing input: on a manifest where the filename is
absent, `add_file_to_project` of `fix_all_missing_files.py` splices
`content[:ref_section_end]` (a stale index) against
`content[build_section_end:]`, duplicating every byte between the
PBXBuildFile end marker and the old PBXFileReference end marker: the input
holds one `/* End PBXBuildFile section */` marker, the persisted output
holds two — a corrupted document is committed, destroying the original
persisted text.  On the variant where the filename is already present,
reading the never-assigned `ref_section_end` raises `NameError` instead
(no write at all). -/
theorem c6_stale_splice :
    countSub ("/* End PBXBuildFile section */".toList) exContent6 = 1 ∧
    ((add_file_fix ("0123456789ABCDEF01234567".toList) ("AAAAAAAAAAAAAAAAAAAAAAA0".toList)
        ("DoseModels.swift".toList) ("../DoseTapiOSApp/DoseModels.swift".toList)
        exContent6).toOption.map (countSub ("/* End PBXBuildFile section */".toList)))
      = some 2 ∧
    (add_file_fix ("0123456789ABCDEF01234567".toList) ("AAAAAAAAAAAAAAAAAAAAAAA0".toList)
        ("DoseModels.swift".toList) ("../DoseTapiOSApp/DoseModels.swift".toList)
        exContent6crash).toOption = none := by decide

/-! ## Record-level manifest: integrity under addFile / removeFile(cascade) -/

/-- Record-level view of the manifest state the scripts manipulate: the
PBXBuildFile entries `(id, displayName, fileRef)`, the PBXFileReference
entries `(id, displayName)`, the group children references and the Sources
build-phase membership entries `(referenced id, displayName)` — each line of
the four textual regions the add/remove scripts edit. -/
structure Pbx where
  buildFiles : List (Str × Str × Str)
  fileRefs : List (Str × Str)
  groupChildren : List (Str × Str)
  phaseFiles : List (Str × Str)
deriving DecidableEq

/-- Identifiers of the file-reference records. -/
def fileRefIds (m : Pbx) : List Str := m.fileRefs.map (fun r => r.1)

/-- Identifiers of the build-file records. -/
def buildIds (m : Pbx) : List Str := m.buildFiles.map (fun b => b.1)

/-- Identifiers referenced by the build-phase membership list. -/
def phaseIds (m : Pbx) : List Str := m.phaseFiles.map (fun p => p.1)

/-- All record identifiers of the manifest (references are not records). -/
def allIds (m : Pbx) : List Str := buildIds m ++ fileRefIds m

/-- The addFile mutation at record level, as performed by
`add_swift_files.py` lines 87-110 (and the other add scripts): append a
build file referencing the new file reference, the file reference itself,
a group child for it and a build-phase membership entry for the build
file. -/
def addFileRec (m : Pbx) (name bid fid : Str) : Pbx :=
  { buildFiles := m.buildFiles ++ [(bid, name, fid)]
    fileRefs := m.fileRefs ++ [(fid, name)]
    groupChildren := m.groupChildren ++ [(fid, name)]
    phaseFiles := m.phaseFiles ++ [(bid, name)] }

/-- The removeFile(cascade) mutation at record level, as performed by
`remove_broken_references` of `rebuild_project.py` lines 47-74: delete, by
displayName, the build-file entry, the file reference, the group children
and the build-phase membership entries of the named file. -/
def removeFileRec (m : Pbx) (name : Str) : Pbx :=
  { buildFiles := m.buildFiles.filter (fun b => b.2.1 ≠ name)
    fileRefs := m.fileRefs.filter (fun r => r.2 ≠ name)
    groupChildren := m.groupChildren.filter (fun c => c.2 ≠ name)
    phaseFiles := m.phaseFiles.filter (fun p => p.2 ≠ name) }

/-- Modelled from the spec: the Violation taxonomy of the Integrity
Validator (section 4.5), which has no implementation under src/ —
`DanglingReference`, `DuplicateIdentifier`, `OrphanedBuildEntry`. -/
inductive Viol where
  | dangling : Str → Str → Viol
  | dupId : Str → Viol
  | orphan : Str → Viol
deriving DecidableEq

/-- Identifiers occurring a second time in the list. -/
def dupIds : List Str → List Str
  | [] => []
  | x :: xs => if elemB x xs then x :: dupIds xs else dupIds xs

/-- Modelled from the spec: `validate(Manifest) -> list of Violation`
(section 4.5; no implementation exists under src/).  Reports a
DanglingReference for every build-file fileRef, group child or phase
member that does not resolve to a record of the expected kind, a
DuplicateIdentifier for every repeated record id, and an
OrphanedBuildEntry for every build file with no phase membership. -/
def validate (m : Pbx) : List Viol :=
  (m.buildFiles.filterMap fun b =>
    if elemB b.2.2 (fileRefIds m) then none else some (Viol.dangling b.1 b.2.2)) ++
  (m.groupChildren.filterMap fun c =>
    if elemB c.1 (fileRefIds m) then none else some (Viol.dangling c.1 c.1)) ++
  (m.phaseFiles.filterMap fun p =>
    if elemB p.1 (buildIds m) then none else some (Viol.dangling p.1 p.1)) ++
  ((dupIds (allIds m)).map Viol.dupId) ++
  (m.buildFiles.filterMap fun b =>
    if elemB b.1 (phaseIds m) then none else some (Viol.orphan b.1))

/-- Name coherence of the textual manifest: every reference comment names
the record it points to (true of every pbxproj the scripts write, since
the comments are generated from the referenced record); removal by
displayName is only meaningful under it. -/
def Coherent (m : Pbx) : Prop :=
  (∀ b ∈ m.buildFiles, (b.2.2, b.2.1) ∈ m.fileRefs) ∧
  (∀ c ∈ m.groupChildren, c ∈ m.fileRefs) ∧
  (∀ p ∈ m.phaseFiles, ∃ b ∈ m.buildFiles, b.1 = p.1 ∧ b.2.1 = p.2)

/-- Unpacked reading of `validate m = []`. -/
def Healthy (m : Pbx) : Prop :=
  (∀ b ∈ m.buildFiles, b.2.2 ∈ fileRefIds m) ∧
  (∀ c ∈ m.groupChildren, c.1 ∈ fileRefIds m) ∧
  (∀ p ∈ m.phaseFiles, p.1 ∈ buildIds m) ∧
  (allIds m).Nodup ∧
  (∀ b ∈ m.buildFiles, b.1 ∈ phaseIds m)

theorem dupIds_eq_nil : ∀ (l : List Str), dupIds l = [] ↔ l.Nodup := by
  intro l
  induction l with
  | nil => simp [dupIds]
  | cons x xs ih =>
      by_cases hx : elemB x xs = true
      · simp [dupIds, hx, List.nodup_cons, elemB_iff.mp hx]
      · have hnx : x ∉ xs := fun hmem => by simp [elemB_iff.mpr hmem] at hx
        simp [dupIds, hx, List.nodup_cons, hnx, ih]

theorem validate_eq_nil_iff (m : Pbx) : validate m = [] ↔ Healthy m := by
  unfold validate Healthy
  simp only [List.append_eq_nil, List.filterMap_eq_nil_iff, List.map_eq_nil_iff, dupIds_eq_nil,
    and_assoc]
  constructor
  · rintro ⟨h1, h2, h3, h4, h5⟩
    refine ⟨?_, ?_, ?_, h4, ?_⟩
    · intro b hb
      have := h1 b hb
      by_cases hc : elemB b.2.2 (fileRefIds m) = true
      · exact elemB_iff.mp hc
      · simp [hc] at this
    · intro c hc
      have := h2 c hc
      by_cases hcc : elemB c.1 (fileRefIds m) = true
      · exact elemB_iff.mp hcc
      · simp [hcc] at this
    · intro p hp
      have := h3 p hp
      by_cases hcc : elemB p.1 (buildIds m) = true
      · exact elemB_iff.mp hcc
      · simp [hcc] at this
    · intro b hb
      have := h5 b hb
      by_cases hcc : elemB b.1 (phaseIds m) = true
      · exact elemB_iff.mp hcc
      · simp [hcc] at this
  · rintro ⟨h1, h2, h3, h4, h5⟩
    refine ⟨?_, ?_, ?_, h4, ?_⟩
    · intro b hb
      simp [elemB_iff.mpr (h1 b hb)]
    · intro c hc
      simp [elemB_iff.mpr (h2 c hc)]
    · intro p hp
      simp [elemB_iff.mpr (h3 p hp)]
    · intro b hb
      simp [elemB_iff.mpr (h5 b hb)]

theorem step_add {m : Pbx} {name bid fid : Str}
    (hC : Coherent m) (hH : Healthy m)
    (hb : bid ∉ allIds m) (hf : fid ∉ allIds m) (hbf : bid ≠ fid) :
    Coherent (addFileRec m name bid fid) ∧ Healthy (addFileRec m name bid fid) := by
  obtain ⟨c1, c2, c3⟩ := hC
  obtain ⟨g1, g2, g3, g4, g5⟩ := hH
  have hids : allIds (addFileRec m name bid fid)
      = (buildIds m ++ [bid]) ++ (fileRefIds m ++ [fid]) := by
    simp [allIds, buildIds, fileRefIds, addFileRec]
  constructor
  · refine ⟨?_, ?_, ?_⟩
    · intro b hb'
      simp only [addFileRec, List.mem_append, List.mem_singleton] at hb' ⊢
      rcases hb' with h | h
      · exact Or.inl (c1 b h)
      · subst h
        simp
    · intro c hc'
      simp only [addFileRec, List.mem_append, List.mem_singleton] at hc' ⊢
      rcases hc' with h | h
      · exact Or.inl (c2 c h)
      · subst h
        simp
    · intro p hp'
      simp only [addFileRec, List.mem_append, List.mem_singleton] at hp' ⊢
      rcases hp' with h | h
      · obtain ⟨b, hbmem, h1, h2⟩ := c3 p h
        exact ⟨b, Or.inl hbmem, h1, h2⟩
      · subst h
        exact ⟨(bid, name, fid), Or.inr rfl, rfl, rfl⟩
  · refine ⟨?_, ?_, ?_, ?_, ?_⟩
    · intro b hb'
      simp only [addFileRec, List.mem_append, List.mem_singleton] at hb'
      simp only [addFileRec, fileRefIds, List.map_append, List.mem_append]
      rcases hb' with h | h
      · exact Or.inl (by simpa [fileRefIds] using g1 b h)
      · subst h
        simp
    · intro c hc'
      simp only [addFileRec, List.mem_append, List.mem_singleton] at hc'
      simp only [addFileRec, fileRefIds, List.map_append, List.mem_append]
      rcases hc' with h | h
      · exact Or.inl (by simpa [fileRefIds] using g2 c h)
      · subst h
        simp
    · intro p hp'
      simp only [addFileRec, List.mem_append, List.mem_singleton] at hp'
      simp only [addFileRec, buildIds, List.map_append, List.mem_append]
      rcases hp' with h | h
      · exact Or.inl (by simpa [buildIds] using g3 p h)
      · subst h
        simp
    · rw [hids]
      have hdisj0 : ∀ x ∈ buildIds m ++ fileRefIds m, x ∈ allIds m := by
        intro x hx
        simpa [allIds] using hx
      rw [List.nodup_append, List.nodup_append, List.nodup_append]
      have hnd := g4
      rw [allIds, List.nodup_append] at hnd
      obtain ⟨ndb, ndf, nddisj⟩ := hnd
      refine ⟨⟨ndb, by simp, ?_⟩, ⟨ndf, by simp, ?_⟩, ?_⟩
      · intro x hx
        simp only [List.mem_singleton]
        rintro rfl
        exact hb (by simp [allIds, hx])
      · intro x hx
        simp only [List.mem_singleton]
        rintro rfl
        exact hf (by simp [allIds, hx])
      · intro x hx
        simp only [List.mem_append, List.mem_singleton] at hx ⊢
        rcases hx with h | h
        · rintro (h2 | h2)
          · exact nddisj h h2
          · subst h2
            exact hf (by simp [allIds, h])
        · subst h
          rintro (h2 | h2)
          · exact hb (by simp [allIds, h2])
          · exact hbf h2
    · intro b hb'
      simp only [addFileRec, List.mem_append, List.mem_singleton] at hb'
      simp only [addFileRec, phaseIds, List.map_append, List.mem_append]
      rcases hb' with h | h
      · exact Or.inl (by simpa [phaseIds] using g5 b h)
      · subst h
        simp

theorem step_remove {m : Pbx} {name : Str}
    (hC : Coherent m) (hH : Healthy m) :
    Coherent (removeFileRec m name) ∧ Healthy (removeFileRec m name) := by
  obtain ⟨c1, c2, c3⟩ := hC
  obtain ⟨g1, g2, g3, g4, g5⟩ := hH
  have hbuild : ∀ b, b ∈ (removeFileRec m name).buildFiles ↔
      b ∈ m.buildFiles ∧ b.2.1 ≠ name := by
    intro b
    simp [removeFileRec, List.mem_filter]
  have href : ∀ r, r ∈ (removeFileRec m name).fileRefs ↔
      r ∈ m.fileRefs ∧ r.2 ≠ name := by
    intro r
    simp [removeFileRec, List.mem_filter]
  have hchild : ∀ c, c ∈ (removeFileRec m name).groupChildren ↔
      c ∈ m.groupChildren ∧ c.2 ≠ name := by
    intro c
    simp [removeFileRec, List.mem_filter]
  have hphase : ∀ p, p ∈ (removeFileRec m name).phaseFiles ↔
      p ∈ m.phaseFiles ∧ p.2 ≠ name := by
    intro p
    simp [removeFileRec, List.mem_filter]
  have hbinj : ∀ x ∈ m.buildFiles, ∀ y ∈ m.buildFiles, x.1 = y.1 → x = y := by
    have hnd : (buildIds m).Nodup := by
      rw [allIds, List.nodup_append] at g4
      exact g4.1
    exact fun x hx y hy hxy => List.inj_on_of_nodup_map hnd hx hy hxy
  constructor
  · refine ⟨?_, ?_, ?_⟩
    · intro b hb'
      obtain ⟨hbm, hbn⟩ := (hbuild b).mp hb'
      exact (href _).mpr ⟨c1 b hbm, hbn⟩
    · intro c hc'
      obtain ⟨hcm, hcn⟩ := (hchild c).mp hc'
      exact (href _).mpr ⟨c2 c hcm, hcn⟩
    · intro p hp'
      obtain ⟨hpm, hpn⟩ := (hphase p).mp hp'
      obtain ⟨b, hbm, h1, h2⟩ := c3 p hpm
      exact ⟨b, (hbuild b).mpr ⟨hbm, by rw [h2]; exact hpn⟩, h1, h2⟩
  · refine ⟨?_, ?_, ?_, ?_, ?_⟩
    · intro b hb'
      obtain ⟨hbm, hbn⟩ := (hbuild b).mp hb'
      have hpair := c1 b hbm
      have : (b.2.2, b.2.1) ∈ (removeFileRec m name).fileRefs :=
        (href _).mpr ⟨hpair, hbn⟩
      exact List.mem_map.mpr ⟨(b.2.2, b.2.1), this, rfl⟩
    · intro c hc'
      obtain ⟨hcm, hcn⟩ := (hchild c).mp hc'
      have : c ∈ (removeFileRec m name).fileRefs := (href _).mpr ⟨c2 c hcm, hcn⟩
      exact List.mem_map.mpr ⟨c, this, rfl⟩
    · intro p hp'
      obtain ⟨hpm, hpn⟩ := (hphase p).mp hp'
      obtain ⟨b, hbm, h1, h2⟩ := c3 p hpm
      have : b ∈ (removeFileRec m name).buildFiles :=
        (hbuild b).mpr ⟨hbm, by rw [h2]; exact hpn⟩
      exact List.mem_map.mpr ⟨b, this, h1⟩
    · have hsub : (allIds (removeFileRec m name)).Sublist (allIds m) := by
        unfold allIds buildIds fileRefIds removeFileRec
        exact List.Sublist.append
          ((List.filter_sublist _).map _) ((List.filter_sublist _).map _)
      exact g4.sublist hsub
    · intro b hb'
      obtain ⟨hbm, hbn⟩ := (hbuild b).mp hb'
      have hpm := g5 b hbm
      obtain ⟨p, hpmem, hpid⟩ := List.mem_map.mp hpm
      obtain ⟨b2, hb2m, h1, h2⟩ := c3 p hpmem
      have hbeq : b2 = b := hbinj b2 hb2m b hbm (by rw [h1, hpid])
      subst hbeq
      have : p ∈ (removeFileRec m name).phaseFiles :=
        (hphase p).mpr ⟨hpmem, by rw [← h2]; exact hbn⟩
      exact List.mem_map.mpr ⟨p, this, hpid⟩

/-- The two mutations the claim quantifies over. -/
inductive MOp where
  | addF : Str → Str → Str → MOp
  | removeF : Str → MOp
deriving DecidableEq

/-- Application of one mutation. -/
def applyOp (m : Pbx) : MOp → Pbx
  | .addF name bid fid => addFileRec m name bid fid
  | .removeF name => removeFileRec m name

/-- Application of a mutation sequence. -/
def applyOps (m : Pbx) : List MOp → Pbx
  | [] => m
  | o :: os => applyOps (applyOp m o) os

/-- Validity of one mutation against the current state: addFile uses fresh
distinct identifiers (the Identifier Generator contract) and removeFile
names an existing declaration. -/
def ValidOp (m : Pbx) : MOp → Prop
  | .addF _ bid fid => bid ∉ allIds m ∧ fid ∉ allIds m ∧ bid ≠ fid
  | .removeF name => ∃ r ∈ m.fileRefs, r.2 = name

/-- Validity of a whole sequence, each step judged in the state it runs in. -/
def ValidSeq : Pbx → List MOp → Prop
  | _, [] => True
  | m, o :: os => ValidOp m o ∧ ValidSeq (applyOp m o) os

instance validOpDec (m : Pbx) (o : MOp) : Decidable (ValidOp m o) := by
  cases o with
  | addF name bid fid => unfold ValidOp; infer_instance
  | removeF name => unfold ValidOp; infer_instance

instance validSeqDec : (m : Pbx) → (ops : List MOp) → Decidable (ValidSeq m ops)
  | _, [] => .isTrue trivial
  | m, o :: os => by
      unfold ValidSeq
      have : Decidable (ValidSeq (applyOp m o) os) := validSeqDec _ os
      infer_instance

instance coherentDec (m : Pbx) : Decidable (Coherent m) := by
  unfold Coherent
  infer_instance

theorem step_valid {m : Pbx} {o : MOp}
    (hC : Coherent m) (hH : Healthy m) (hv : ValidOp m o) :
    Coherent (applyOp m o) ∧ Healthy (applyOp m o) := by
  cases o with
  | addF name bid fid =>
      obtain ⟨h1, h2, h3⟩ := hv
      exact step_add hC hH h1 h2 h3
  | removeF name => exact step_remove hC hH

/-- C3: integrity is preserved by mutation.  For every sequence of valid
addFile / removeFile(cascade) operations applied to a healthy, coherent
manifest, `validate` returns the empty violation list after each step
(every prefix of the sequence): no dangling reference, no duplicate
identifier, no orphaned BuildEntry. -/
theorem c3_integrity_preserved : ∀ (ops : List MOp) (m : Pbx) (k : Nat),
    Coherent m → validate m = [] → ValidSeq m ops →
    validate (applyOps m (ops.take k)) = [] := by
  intro ops
  induction ops with
  | nil =>
      intro m k hC hH _
      simpa [applyOps] using hH
  | cons o os ih =>
      intro m k hC hH hseq
      obtain ⟨hop, hseq'⟩ := hseq
      cases k with
      | zero => simpa [applyOps] using hH
      | succ k' =>
          simp only [List.take_succ_cons, applyOps]
          obtain ⟨hC', hH'⟩ := step_valid hC ((validate_eq_nil_iff m).mp hH) hop
          exact ih (applyOp m o) k' hC' ((validate_eq_nil_iff _).mpr hH') hseq'

/-- The §8 scenario manifest: declaration F1 for `A.x`, BuildEntry B1 in
phase P1, child F1 in group G1. -/
def pbxScenario : Pbx :=
  { buildFiles := [(("B1".toList), ("A.x".toList), ("F1".toList))]
    fileRefs := [(("F1".toList), ("A.x".toList))]
    groupChildren := [(("F1".toList), ("A.x".toList))]
    phaseFiles := [(("B1".toList), ("A.x".toList))] }

/-- The §8 scenario operations: add `B.y` with fresh ids, then remove
`A.x` cascading. -/
def opsScenario : List MOp :=
  [MOp.addF ("B.y".toList) ("B2".toList) ("F2".toList), MOp.removeF ("A.x".toList)]

/-- Witness for C3: the scenario sequence keeps the violation list empty. -/
theorem c3_witness : validate (applyOps pbxScenario (opsScenario.take 2)) = [] :=
  c3_integrity_preserved opsScenario pbxScenario 2 (by decide) (by decide) (by decide)
